import Mathlib

/-!
Verification development for the wttw/spf SPF (RFC 7208) checker library.

The Go sources are shallowly embedded: Go strings become `List Char`,
Go ints that are only incremented and compared become `Nat`, Go error
values become `Option (List Char)`, the injected DNS resolver becomes a
pure function from (name, qtype) to a response or a transport error, and
the `Result` evaluation state is threaded explicitly.  A runtime panic
(out-of-bounds slice) is modelled by an `Option` layer: `none` marks a
panic.  Functions are kept executable and structurally recursive so that
concrete evaluations reduce by `decide` / `rfl`.
-/

set_option maxHeartbeats 1000000

namespace Spf

/-- Go strings are modelled as lists of characters. -/
abbrev GoStr := List Char

/-! ## Basic character and string utilities (ASCII, as used by the Go code) -/

def isAsciiAlpha (c : Char) : Bool := (97 ≤ c.toNat && c.toNat ≤ 122) || (65 ≤ c.toNat && c.toNat ≤ 90)

def isAsciiDigit (c : Char) : Bool := 48 ≤ c.toNat && c.toNat ≤ 57

def isAlnum (c : Char) : Bool := isAsciiAlpha c || isAsciiDigit c

/-- ASCII lower-casing, the fragment of `strings.ToLower` exercised here. -/
def lowerChar (c : Char) : Char := if 65 ≤ c.toNat && c.toNat ≤ 90 then Char.ofNat (c.toNat + 32) else c

def lowerStr (s : GoStr) : GoStr := s.map lowerChar

/-- Decimal printing (model of `strconv.Itoa` for naturals). -/
def decDigitAux : Nat → Nat → GoStr → GoStr
  | 0, _, acc => acc
  | fuel+1, n, acc =>
    if n < 10 then Char.ofNat (48 + n % 10) :: acc
    else decDigitAux fuel (n / 10) (Char.ofNat (48 + n % 10) :: acc)

def printNat (n : Nat) : GoStr := decDigitAux (n + 1) n []

def decValAux (acc : Nat) : GoStr → Nat
  | [] => acc
  | c :: rest => decValAux (acc * 10 + (c.toNat - 48)) rest

/-- Value of a run of decimal digits (model of `strconv.Atoi` on digit strings). -/
def decVal (s : GoStr) : Nat := decValAux 0 s

def allDigits (s : GoStr) : Bool := s.all isAsciiDigit

/-- Lower-case hex digit, as used by Go when printing IPv6 addresses. -/
def hexDigitChar (n : Nat) : Char := if n < 10 then Char.ofNat (48 + n) else Char.ofNat (87 + n)

def hexDigitAux : Nat → Nat → GoStr → GoStr
  | 0, _, acc => acc
  | fuel+1, n, acc =>
    if n < 16 then hexDigitChar (n % 16) :: acc
    else hexDigitAux fuel (n / 16) (hexDigitChar (n % 16) :: acc)

def printHex (n : Nat) : GoStr := hexDigitAux (n + 1) n []

def isHexChar (c : Char) : Bool :=
  isAsciiDigit c || (97 ≤ c.toNat && c.toNat ≤ 102) || (65 ≤ c.toNat && c.toNat ≤ 70)

def hexCharVal (c : Char) : Nat :=
  if isAsciiDigit c then c.toNat - 48
  else if 97 ≤ c.toNat then c.toNat - 87
  else c.toNat - 55

def hexValAux (acc : Nat) : GoStr → Nat
  | [] => acc
  | c :: rest => hexValAux (acc * 16 + hexCharVal c) rest

def hexVal (s : GoStr) : Nat := hexValAux 0 s

/-- Split on a separator character (model of `strings.Split`). -/
def splitChar (sep : Char) : GoStr → List GoStr
  | [] => [[]]
  | c :: rest =>
    if c = sep then [] :: splitChar sep rest
    else
      match splitChar sep rest with
      | [] => [[c]]
      | h :: t => (c :: h) :: t

/-- Join with a separator character (model of `strings.Join`). -/
def joinSep (sep : Char) : List GoStr → GoStr
  | [] => []
  | [x] => x
  | x :: y :: rest => x ++ sep :: joinSep sep (y :: rest)

/-- Concatenation of fragments (model of `strings.Join(xs, "")`). -/
def joinAll : List GoStr → GoStr
  | [] => []
  | x :: rest => x ++ joinAll rest

/-- Go's `unicode.IsSpace` restricted to ASCII, as relevant to `strings.Fields`. -/
def isGoSpace (c : Char) : Bool :=
  c = ' ' || c = '\t' || c = '\n' || c = '\r' || c.toNat = 11 || c.toNat = 12

def goFieldsAux : GoStr → GoStr → List GoStr
  | [], cur => if cur.isEmpty then [] else [cur.reverse]
  | c :: rest, cur =>
    if isGoSpace c then
      if cur.isEmpty then goFieldsAux rest [] else cur.reverse :: goFieldsAux rest []
    else goFieldsAux rest (c :: cur)

/-- Model of `strings.Fields`: split on whitespace runs, dropping empties. -/
def goFields (s : GoStr) : List GoStr := goFieldsAux s []

/-- Index of the last occurrence of a character (model of `strings.LastIndex`
for a one-character needle); `none` models Go's `-1`. -/
def lastIndexOf (ch : Char) : GoStr → Option Nat
  | [] => none
  | c :: rest =>
    match lastIndexOf ch rest with
    | some i => some (i + 1)
    | none => if c = ch then some 0 else none

/-- Model of `strings.TrimSuffix(s, ".")`. -/
def trimDotSuffix (s : GoStr) : GoStr :=
  if s.getLast? = some '.' then s.dropLast else s

/-- Model of `strings.HasPrefix(s, "@")`. -/
def startsWithAt (s : GoStr) : Bool :=
  match s with
  | '@' :: _ => true
  | _ => false

/-! ## Result codes (result.go) -/

/-- `ResultType` from result.go: the seven RFC 7208 result codes. -/
inductive ResultType where
  | None
  | Neutral
  | Pass
  | Fail
  | Softfail
  | Temperror
  | Permerror
deriving DecidableEq, Repr

/-! ## IP addresses and DNS model

The library consumes miekg/dns and net only through a narrow surface;
those externals are modelled here.  An IPv4 address (including Go's
16-byte 4-in-6 form, which `To4` converts) is `IP.v4` with a 32-bit
value; a pure IPv6 address is `IP.v6` with a 128-bit value. -/

inductive IP where
  | v4 (a : Nat)
  | v6 (a : Nat)
deriving DecidableEq, Repr

def byteAt (n : Nat) (i : Nat) : Nat := (n >>> (8 * i)) &&& 255

/-- Dotted-quad form of a 32-bit value (model of `net.IP.String` for IPv4). -/
def ipv4Dotted (a : Nat) : GoStr :=
  printNat (byteAt a 3) ++ '.' :: printNat (byteAt a 2) ++ '.' :: printNat (byteAt a 1) ++ '.' :: printNat (byteAt a 0)

/-- The 8 16-bit groups of a 128-bit value, most significant first. -/
def groupsOfAux : Nat → Nat → List Nat
  | 0, _ => []
  | k+1, n => groupsOfAux k (n / 65536) ++ [n % 65536]

def groupsOf (n : Nat) : List Nat := groupsOfAux 8 n

/-- Maximal runs of zero groups, as (start index, length) pairs;
mirrors the scan in Go's `net.IP.String`. -/
def zeroRunsAux : List Nat → Nat → Option (Nat × Nat) → List (Nat × Nat)
  | [], _, cur => match cur with | some r => [r] | none => []
  | g :: rest, i, cur =>
    if g = 0 then
      match cur with
      | some (s, l) => zeroRunsAux rest (i + 1) (some (s, l + 1))
      | none => zeroRunsAux rest (i + 1) (some (i, 1))
    else
      match cur with
      | some r => r :: zeroRunsAux rest (i + 1) none
      | none => zeroRunsAux rest (i + 1) none

def zeroRuns (gs : List Nat) : List (Nat × Nat) := zeroRunsAux gs 0 none

/-- The leftmost longest zero run of length at least 2, compressed as `::`
by Go's `net.IP.String`; `none` when no such run exists. -/
def bestZeroRun (gs : List Nat) : Option (Nat × Nat) :=
  let best := (zeroRuns gs).foldl
    (fun acc r => match acc with
      | some (s, l) => if r.2 > l then some r else some (s, l)
      | none => some r) none
  match best with
  | some (s, l) => if l ≥ 2 then some (s, l) else none
  | none => none

/-- RFC 5952 style IPv6 text (model of `net.IP.String` for a pure IPv6
address): lower-case hex groups, longest zero run compressed. -/
def ipv6Grouped (gs : List Nat) : GoStr :=
  match bestZeroRun gs with
  | none => joinSep ':' (gs.map printHex)
  | some (s, l) =>
      joinSep ':' ((gs.take s).map printHex) ++ ':' :: ':' :: joinSep ':' ((gs.drop (s + l)).map printHex)

/-- Is a 128-bit value a 4-in-6 (v4-mapped) address, i.e. does Go's
`IP.To4` succeed on it? -/
def isV4Mapped (n : Nat) : Bool := n >>> 32 = 65535

/-- Model of `net.IP.String` on a 16-byte address: dotted quad when
4-in-6, RFC 5952 text otherwise. -/
def ipv6String (n : Nat) : GoStr :=
  if isV4Mapped n then ipv4Dotted (n &&& 4294967295) else ipv6Grouped (groupsOf n)

def IP.str : IP → GoStr
  | .v4 a => ipv4Dotted a
  | .v6 a => ipv6String a

/-- Is this connection address IPv4 for Go's `result.ip.To4() != nil` test? -/
def IP.isV4 : IP → Bool
  | .v4 _ => true
  | .v6 _ => false

/-! ## DNS messages and the injectable resolver -/

def typeA : Nat := 1
def typePTR : Nat := 12
def typeMX : Nat := 15
def typeTXT : Nat := 16
def typeAAAA : Nat := 28

def rcodeSuccess : Nat := 0
def rcodeServerFailure : Nat := 2
def rcodeNameError : Nat := 3

/-- Resource records, carrying only the payloads the library reads. -/
inductive RR where
  | a (ip : Nat)
  | aaaa (ip : Nat)
  | mx (pref : Nat) (host : GoStr)
  | ptr (host : GoStr)
  | txt (txts : List GoStr)
  | other (rrtype : Nat)
deriving DecidableEq, Repr

/-- `rr.Header().Rrtype`. -/
def RR.rrtype : RR → Nat
  | .a _ => typeA
  | .aaaa _ => typeAAAA
  | .mx _ _ => typeMX
  | .ptr _ => typePTR
  | .txt _ => typeTXT
  | .other t => t

structure Msg where
  rcode : Nat
  answer : List RR
deriving DecidableEq, Repr

/-- The injected `Resolver` (spf.Resolver): a DNS question is (name, qtype);
a transport error is modelled by `Except.error`. -/
abbrev Resolver := GoStr → Nat → Except GoStr Msg

/-! ## Checker configuration and evaluation state -/

/-- Checker configuration (the `Checker` struct); hooks are observation
points and are omitted, the clock backing the `t` macro appears as `now`. -/
structure Checker where
  resolver : Resolver
  DNSLimit : Nat
  MXAddressLimit : Nat
  VoidQueryLimit : Nat
  PtrAddressLimit : Nat
  Hostname : GoStr
  now : Nat

/-- The `Result` evaluation state threaded through checking (result.go);
the back pointer to the Checker is passed explicitly instead. -/
structure Result where
  rtype : ResultType
  error : Option GoStr
  DNSQueries : Nat
  VoidLookups : Nat
  Explanation : GoStr
  UsedHelo : Bool
  ip : IP
  sender : GoStr
  helo : GoStr
deriving DecidableEq, Repr

/-! ## miekg/dns helpers used by the code (modelled externals) -/

/-- Model of `dns.IsFqdn` (escaping is not used by this library). -/
def dnsIsFqdn (s : GoStr) : Bool := s.getLast? = some '.'

/-- Model of `dns.Fqdn`. -/
def dnsFqdn (s : GoStr) : GoStr := if dnsIsFqdn s then s else s ++ ['.']

/-- The labels of a domain name, ignoring a trailing root dot. -/
def dnsLabelSplit (s : GoStr) : List GoStr :=
  splitChar '.' (if s.getLast? = some '.' then s.dropLast else s)

/-- Model of miekg/dns `IsDomainName`: the label count together with
whether the name packs (nonempty labels of at most 63 octets, total
length at most 255; escaping is not modelled). -/
def dnsIsDomainName (s : GoStr) : Nat × Bool :=
  if s = [] then (0, false)
  else if s = ['.'] then (0, true)
  else
    let labs := dnsLabelSplit s
    (labs.length, labs.all (fun l => !l.isEmpty && l.length ≤ 63) && s.length ≤ 255)

/-- Model of `dns.IsSubDomain parent child`: the labels of `parent` are a
case-insensitive suffix of the labels of `child`. -/
def dnsIsSubDomain (parent child : GoStr) : Bool :=
  ((dnsLabelSplit parent).map lowerStr).isSuffixOf ((dnsLabelSplit child).map lowerStr)

/-- The nibbles of an IPv6 address, least significant first. -/
def nibblesLE : Nat → Nat → List Nat
  | 0, _ => []
  | k+1, n => (n &&& 15) :: nibblesLE k (n >>> 4)

/-- Model of `dns.ReverseAddr` applied to `ip.String()`: the reverse
lookup name.  Go only errors when the string does not parse as an IP,
which cannot happen for a printed address, so this is total. -/
def dnsReverseAddr (ip : IP) : GoStr :=
  match ip with
  | .v4 a =>
      printNat (byteAt a 0) ++ '.' :: printNat (byteAt a 1) ++ '.' :: printNat (byteAt a 2)
        ++ '.' :: printNat (byteAt a 3) ++ (".in-addr.arpa.").data
  | .v6 a =>
      joinAll ((nibblesLE 32 a).map (fun d => [hexDigitChar d, '.'])) ++ ("ip6.arpa.").data

/-! ## Regular-expression models (ptr.go, part_003)

Each Go regexp used by the library is small and anchored; each is
re-implemented here as a structural function with the same semantics. -/

/-- Model of `spfPrefixRe = (?i)^v=spf1(?: |$)`: case-insensitive
`v=spf1` followed by a space character or end of string. -/
def spfPrefixMatch (s : GoStr) : Bool :=
  lowerStr (s.take 6) = ("v=spf1").data && (s.drop 6 = [] || (s.drop 6).head? = some ' ')

/-- Model of `invalidCharRe = [^ -~]`: does the record contain a byte
outside printable ASCII? -/
def hasInvalidChar (s : GoStr) : Bool := s.any (fun c => c.toNat < 32 || c.toNat > 126)

/-- Model of `allNumeric = ^[0-9]*$` applied to the captured TLD. -/
def allNumeric (s : GoStr) : Bool := s.all isAsciiDigit

def isTldChar (c : Char) : Bool := isAlnum c || c = '-'

/-- Model of `validDomainSuffix = (?i)\.([a-z0-9][a-z0-9-]*[a-z0-9])\.?$`:
the captured final label, if the name ends (up to one trailing dot) in a
dot followed by an LDH label of length at least two with alphanumeric
endpoints. -/
def suffixCapture (s : GoStr) : Option GoStr :=
  let r := match s.reverse with
    | '.' :: t => t
    | t => t
  let lab := r.takeWhile isTldChar
  match r.dropWhile isTldChar with
  | '.' :: _ =>
    match lab with
    | [] => none
    | [_] => none
    | a :: rest =>
      if isAlnum a && isAlnum (lab.getLastD a) && rest.dropLast.all isTldChar then
        some lab.reverse
      else none
  | _ => none

/-- `validDomainName` from ptr.go. -/
def validDomainName (hostname : GoStr) : Bool :=
  let p := dnsIsDomainName hostname
  if !p.2 || p.1 < 2 then false
  else
    match suffixCapture hostname with
    | none => false
    | some lab => !allNumeric lab

/-! ## Macro-string syntax (macro.go) -/

/-- The set of macro letters in `macroRe`'s first capture class. -/
def isMacroLetter (c : Char) : Bool :=
  let l := lowerChar c
  l = 'a' || l = 'l' || l = 'o' || l = 'd' || l = 'i' || l = 'p' || l = 'h' ||
  l = 'c' || l = 'r' || l = 't' || l = 'v'

def isMacroDelim (c : Char) : Bool :=
  c = '.' || c = '+' || c = '=' || c = ',' || c = '/' || c = '_' || c = '-'

/-- Model of `macroRe = ^{([...])([0-9]{0,3})(r?)([.+=,/_-]*)}` applied to
the text after a `%`: the four captures (letter, digit run, reverse flag,
delimiters) together with the remaining input, or `none` when it does not
match.  The input here starts with the character after `%`. -/
def macroTokenMatch (s : GoStr) : Option (Char × GoStr × Bool × GoStr × GoStr) :=
  match s with
  | '{' :: rest =>
    match rest with
    | [] => none
    | letter :: rest1 =>
      if isMacroLetter letter then
        let digits := (rest1.takeWhile isAsciiDigit).take 3
        let rest2 := rest1.drop digits.length
        let (rflag, rest3) :=
          match rest2 with
          | 'r' :: t => (true, t)
          | t => (false, t)
        let delims := rest3.takeWhile isMacroDelim
        match rest3.dropWhile isMacroDelim with
        | '}' :: rest4 => some (letter, digits, rflag, delims, rest4)
        | _ => none
      else none
  | _ => none

/-- Scanner state for `MacroIsValid`.  The loop in macro.go alternates
between plain text and the anchored `macroRe` match; since the regex's
backtracking is deterministic (digits, `r` and delimiters are disjoint
character classes), the scan is a DFA, which keeps the recursion
structural. -/
inductive MacState where
  | plain
  | afterPct
  | expectLetter
  | afterLetter (d : Nat)
  | afterR
  | inDelims
deriving DecidableEq

def macroScan : MacState → GoStr → Bool
  | .plain, [] => true
  | _, [] => false
  | .plain, c :: rest => if c = '%' then macroScan .afterPct rest else macroScan .plain rest
  | .afterPct, c :: rest =>
    if c = '%' || c = '-' || c = '_' then macroScan .plain rest
    else if c = '{' then macroScan .expectLetter rest
    else false
  | .expectLetter, c :: rest =>
    if isMacroLetter c then macroScan (.afterLetter 0) rest else false
  | .afterLetter d, c :: rest =>
    if isAsciiDigit c then (if d < 3 then macroScan (.afterLetter (d + 1)) rest else false)
    else if c = 'r' then macroScan .afterR rest
    else if isMacroDelim c then macroScan .inDelims rest
    else if c = '}' then macroScan .plain rest
    else false
  | .afterR, c :: rest =>
    if isMacroDelim c then macroScan .inDelims rest
    else if c = '}' then macroScan .plain rest
    else false
  | .inDelims, c :: rest =>
    if isMacroDelim c then macroScan .inDelims rest
    else if c = '}' then macroScan .plain rest
    else false

/-- `MacroIsValid` from macro.go. -/
def MacroIsValid (s : GoStr) : Bool := macroScan .plain s

/-- `validDomainSpec` from ptr.go: the spec must end in a macro token or
in a valid, not-all-numeric TLD label. -/
def validDomainSpec (domainSpec : GoStr) : Bool :=
  if validDomainName domainSpec then true
  else if !MacroIsValid domainSpec then false
  else if domainSpec.getLast? = some '}' then true
  else
    match suffixCapture domainSpec with
    | none => false
    | some lab => !allNumeric lab

/-- `validOptionalDomainSpec` from ptr.go. -/
def validOptionalDomainSpec (domainSpec : GoStr) : Bool :=
  domainSpec = [] || validDomainSpec domainSpec

/-! ## DNS gateway (ptr.go: lookupDNS, lookupAddresses, getSPFRecord) -/

/-- Outcome of `lookupDNS`: records, result class, error, updated state. -/
structure LookupOut where
  rrs : List RR
  rt : ResultType
  err : Option GoStr
  st : Result
deriving Repr

/-- `lookupDNS` from ptr.go: one query via the resolver, with void-answer
accounting.  `c.resolve` wraps the resolver with a hook call only, so the
resolver is invoked directly. -/
def lookupDNS (c : Checker) (hostname : GoStr) (qtype : Nat) (st : Result) : LookupOut :=
  match c.resolver (dnsFqdn hostname) qtype with
  | .error e => ⟨[], .Temperror, some e, st⟩
  | .ok m =>
    if m.rcode = rcodeNameError || (m.rcode = rcodeSuccess && m.answer.isEmpty) then
      let st := { st with VoidLookups := st.VoidLookups + 1 }
      if st.VoidLookups > c.VoidQueryLimit then
        ⟨[], .Permerror, some (("void queries exceeded limit").data), st⟩
      else ⟨[], .None, none, st⟩
    else if m.rcode ≠ rcodeSuccess then ⟨[], .Temperror, none, st⟩
    else ⟨m.answer.filter (fun rr => rr.rrtype = qtype), .None, none, st⟩

/-- Outcome of `lookupAddresses`. -/
structure AddrOut where
  addrs : List IP
  rt : ResultType
  err : Option GoStr
  st : Result
deriving Repr

/-- Projection of an A/AAAA record list to addresses. -/
def rrAddresses : List RR → List IP
  | [] => []
  | .a ip :: rest => .v4 ip :: rrAddresses rest
  | .aaaa ip :: rest => .v6 ip :: rrAddresses rest
  | _ :: rest => rrAddresses rest

/-- `lookupAddresses` from ptr.go. -/
def lookupAddresses (c : Checker) (target : GoStr) (qtype : Nat) (st : Result) : AddrOut :=
  let out := lookupDNS c target qtype st
  if out.rt ≠ .None then ⟨[], out.rt, out.err, out.st⟩
  else ⟨rrAddresses out.rrs, .None, none, out.st⟩

/-- The joined strings of the TXT records of an answer section, in order
(non-TXT records are skipped), as collected by `getSPFRecord`. -/
def txtStrings : List RR → List GoStr
  | [] => []
  | .txt ts :: rest => joinAll ts :: txtStrings rest
  | _ :: rest => txtStrings rest

/-- `getSPFRecord` from ptr.go: fetch the single SPF TXT record for a
domain.  Returns (record, result class, error); it performs its own TXT
query and does not touch the void-lookup counter. -/
def getSPFRecord (c : Checker) (domain : GoStr) : GoStr × ResultType × Option GoStr :=
  match c.resolver (dnsFqdn domain) typeTXT with
  | .error e => ([], .Temperror, some e)
  | .ok m =>
    if m.rcode = rcodeSuccess || m.rcode = rcodeNameError then
      let spfRecords := (txtStrings m.answer).filter spfPrefixMatch
      match spfRecords with
      | [] => ([], .None, none)
      | [r] => (r, .None, none)
      | _ => ([], .Permerror, none)
    else ([], .Temperror, none)

/-! ## net package models: CIDR parsing and containment

`NewMechanism` and the ip4/ip6 mechanisms consume `net.ParseCIDR`,
`net.IPNet.String` and `net.IPNet.Contains`; these stdlib functions are
modelled here.  A parsed network is its family (4-byte or 16-byte mask),
its masked network number, and its prefix length. -/

structure IPNetM where
  v4 : Bool
  addr : Nat
  ones : Nat
deriving DecidableEq, Repr

/-- The value of `net.CIDRMask ones bits` as a natural number. -/
def maskBits (ones bits : Nat) : Nat := (2 ^ ones - 1) <<< (bits - ones)

/-- One dotted-quad field: digits only, no leading zero, at most 255
(Go's `parseIPv4` via `dtoi`). -/
def parseOctet (s : GoStr) : Option Nat :=
  match s with
  | [] => none
  | [c] => if isAsciiDigit c then some (c.toNat - 48) else none
  | c :: rest =>
    if c = '0' then none
    else if allDigits (c :: rest) && decVal (c :: rest) ≤ 255 then some (decVal (c :: rest))
    else none

/-- Model of Go's `parseIPv4` (strict dotted quad). -/
def parseIPv4Str (s : GoStr) : Option Nat :=
  match splitChar '.' s with
  | [a, b, c, d] =>
    match parseOctet a, parseOctet b, parseOctet c, parseOctet d with
    | some x, some y, some z, some w => some (((x * 256 + y) * 256 + z) * 256 + w)
    | _, _, _, _ => none
  | _ => none

/-- Split at the first occurrence of `::`. -/
def findDoubleColon : GoStr → Option (GoStr × GoStr)
  | ':' :: ':' :: rest => some ([], rest)
  | c :: rest =>
    match findDoubleColon rest with
    | some (l, r) => some (c :: l, r)
    | none => none
  | [] => none

/-- One 16-bit hex group (Go's `xtoi` plus the `≤ 0xFFFF` check). -/
def parseHexGroup (s : GoStr) : Option Nat :=
  if !s.isEmpty && s.all isHexChar && hexVal s ≤ 65535 then some (hexVal s) else none

def parseHexGroups : List GoStr → Option (List Nat)
  | [] => some []
  | t :: rest =>
    match parseHexGroup t, parseHexGroups rest with
    | some v, some gs => some (v :: gs)
    | _, _ => none

/-- Hex groups where the final token may be a trailing dotted quad
(which contributes two groups), per Go's `parseIPv6`. -/
def parseTailGroups : List GoStr → Option (List Nat)
  | [] => some []
  | [t] =>
    if t.contains '.' then
      match parseIPv4Str t with
      | some v => some [v >>> 16, v &&& 65535]
      | none => none
    else (parseHexGroup t).map (fun v => [v])
  | t :: rest =>
    match parseHexGroup t, parseTailGroups rest with
    | some v, some gs => some (v :: gs)
    | _, _ => none

def combineGroups (gs : List Nat) : Nat := gs.foldl (fun a g => a * 65536 + g) 0

/-- Model of Go's `parseIPv6`: at most one `::`, at most 7 explicit
groups beside a `::` (which stands for at least one zero group), exactly
8 without. -/
def parseIPv6Str (s : GoStr) : Option Nat :=
  match findDoubleColon s with
  | some (l, r) =>
    let lt := if l.isEmpty then some [] else parseHexGroups (splitChar ':' l)
    let rt := if r.isEmpty then some [] else parseTailGroups (splitChar ':' r)
    match lt, rt with
    | some lg, some rg =>
      if lg.length + rg.length ≤ 7 then
        some (combineGroups (lg ++ List.replicate (8 - lg.length - rg.length) 0 ++ rg))
      else none
    | _, _ => none
  | none =>
    match parseTailGroups (splitChar ':' s) with
    | some gs => if gs.length = 8 then some (combineGroups gs) else none
    | none => none

/-- Result of `net.ParseCIDR`: whether `ip.To4()` succeeds on the parsed
address, and the network (`&net.IPNet{IP: ip.Mask(m), Mask: m}`). -/
structure CIDRParse where
  to4able : Bool
  netm : IPNetM
deriving DecidableEq, Repr

def firstSlashSplit (s : GoStr) : Option (GoStr × GoStr) :=
  if s.contains '/' then some (s.takeWhile (· ≠ '/'), (s.dropWhile (· ≠ '/')).drop 1)
  else none

/-- Model of `net.ParseCIDR`.  A dotted-quad address gives a 4-byte mask
family with bound 32; otherwise IPv6 with bound 128.  The returned
network number is masked. -/
def goParseCIDR (s : GoStr) : Option CIDRParse :=
  match firstSlashSplit s with
  | none => none
  | some (addr, maskStr) =>
    if maskStr.isEmpty || !allDigits maskStr then none
    else
      let n := decVal maskStr
      match parseIPv4Str addr with
      | some a4 =>
        if n ≤ 32 then some ⟨true, ⟨true, a4 &&& maskBits n 32, n⟩⟩ else none
      | none =>
        match parseIPv6Str addr with
        | some a6 =>
          if n ≤ 128 then some ⟨isV4Mapped a6, ⟨false, a6 &&& maskBits n 128, n⟩⟩ else none
        | none => none

/-- `parseCIDR` from ptr.go: `net.ParseCIDR` plus the strictness check
that the textual mask equals the canonical form of the parsed one. -/
def parseCIDRStrict (s : GoStr) : Option CIDRParse :=
  match goParseCIDR s with
  | none => none
  | some p =>
    match firstSlashSplit s with
    | none => none
    | some (_, maskStr) => if maskStr = printNat p.netm.ones then some p else none

/-- Model of `net.IPNet.String` for the networks producible here. -/
def ipnetString (n : IPNetM) : GoStr :=
  (if n.v4 then ipv4Dotted n.addr else ipv6String n.addr) ++ '/' :: printNat n.ones

/-- Model of `net.IPNet.Contains` (via `networkNumberAndMask`): a 16-byte
network whose address is 4-in-6 is normalised to 4 bytes with the low 4
mask bytes; mismatched lengths never match. -/
def ipnetContains (n : IPNetM) (ip : IP) : Bool :=
  if n.v4 then
    match ip with
    | .v4 a => (a &&& maskBits n.ones 32) = n.addr
    | .v6 _ => false
  else if isV4Mapped n.addr then
    match ip with
    | .v4 a =>
      let m := maskBits n.ones 128 &&& 4294967295
      ((n.addr &&& 4294967295) &&& m) = (a &&& m)
    | .v6 _ => false
  else
    match ip with
    | .v4 _ => false
    | .v6 a => (a &&& maskBits n.ones 128) = n.addr

/-- Model of `(&net.IPNet{IP: address, Mask: CIDRMask ones _}).Contains ip`
for a record address and the mechanism's mask, used by the a/mx loops.
The mask family follows the record family (Mask4 with A, Mask6 with AAAA). -/
def ipMaskContains (address : IP) (ones : Nat) (ip : IP) : Bool :=
  match address, ip with
  | .v4 r, .v4 a => (r &&& maskBits ones 32) = (a &&& maskBits ones 32)
  | .v6 r, .v6 a => (r &&& maskBits ones 128) = (a &&& maskBits ones 128)
  | .v6 r, .v4 a =>
    if isV4Mapped r then
      let m := maskBits ones 128 &&& 4294967295
      ((r &&& 4294967295) &&& m) = (a &&& m)
    else false
  | .v4 _, .v6 _ => false

/-- Model of `net.IP.Equal`: a 4-in-6 address equals its 4-byte form. -/
def ipNorm : IP → IP
  | .v6 a => if isV4Mapped a then .v4 (a &&& 4294967295) else .v6 a
  | x => x

def ipEqual (x y : IP) : Bool := ipNorm x = ipNorm y

/-! ## Macro engine (macro.go) -/

/-- RFC 3986 escaping predicate (`shouldEscape`). -/
def shouldEscape (c : Char) : Bool :=
  !(isAlnum c || c = '-' || c = '.' || c = '_' || c = '~')

def upperHexDigit (n : Nat) : Char := if n < 10 then Char.ofNat (48 + n) else Char.ofNat (55 + n)

/-- `rfc3986Escape` from macro.go (for the ASCII bytes occurring here). -/
def rfc3986Escape (s : GoStr) : GoStr :=
  joinAll (s.map (fun c =>
    if shouldEscape c then ['%', upperHexDigit (c.toNat / 16 % 16), upperHexDigit (c.toNat % 16)]
    else [c]))

/-- The split loop over `strings.IndexAny(replacement, delims)`:
split on any delimiter character, keeping empty parts. -/
def splitAnyAux (delims : GoStr) : GoStr → GoStr → List GoStr
  | [], cur => [cur.reverse]
  | c :: rest, cur =>
    if delims.contains c then cur.reverse :: splitAnyAux delims rest []
    else splitAnyAux delims rest (c :: cur)

def splitAny (delims : GoStr) (s : GoStr) : List GoStr := splitAnyAux delims s []

/-- The nibbles of a 128-bit value, most significant first. -/
def nibblesBE (n : Nat) : List Nat := (List.range 32).map (fun j => (n >>> (4 * (31 - j))) &&& 15)

/-- The `i` macro for an IPv6 connection: 32 hex nibbles joined by dots. -/
def ipv6Nibbled (a : Nat) : GoStr := joinSep '.' ((nibblesBE a).map (fun d => [hexDigitChar d]))

/-- The `ptr` forward-confirmation loop of `expandPtrMacro`: walk the PTR
records, collecting validated hostnames, returning early on an exact
(case-insensitive) match of the target.  The `rr.(*dns.PTR)` type
assertion cannot fail because `lookupDNS` filtered on the PTR rrtype. -/
def ptrMacroLoop (c : Checker) (qtype : Nat) (target : GoStr) :
    List RR → List GoStr → Result → Option GoStr × List GoStr × Result
  | [], possibles, st => (none, possibles, st)
  | rr :: rest, possibles, st =>
    match rr with
    | .ptr hostname =>
      let out := lookupAddresses c hostname qtype st
      match out.err with
      | some _ => ptrMacroLoop c qtype target rest possibles out.st
      | none =>
        if out.addrs.any (fun a => ipEqual a st.ip) then
          if lowerStr hostname = lowerStr target then (some (trimDotSuffix hostname), possibles, out.st)
          else ptrMacroLoop c qtype target rest (possibles ++ [hostname]) out.st
        else ptrMacroLoop c qtype target rest possibles out.st
    | _ => ptrMacroLoop c qtype target rest possibles st

/-- The selection after the loop: a validated subdomain of the target,
else the first validated hostname, else `unknown`. -/
def ptrMacroPick (target : GoStr) (possibles : List GoStr) : GoStr :=
  match possibles.find? (fun p => dnsIsSubDomain target p) with
  | some p => trimDotSuffix p
  | none =>
    match possibles with
    | p :: _ => trimDotSuffix p
    | [] => ("unknown").data

/-- `expandPtrMacro` from ptr.go: the value of the `p` macro. -/
def expandPtrM (c : Checker) (st : Result) (target : GoStr) : GoStr × Result :=
  let qtype := if st.ip.isV4 then typeA else typeAAAA
  let rev := dnsReverseAddr st.ip
  let out := lookupDNS c rev typePTR st
  match out.err with
  | some _ => (("unknown").data, out.st)
  | none =>
    let rrs := if out.rrs.length > c.PtrAddressLimit then out.rrs.take c.PtrAddressLimit else out.rrs
    match ptrMacroLoop c qtype (dnsFqdn target) rrs [] out.st with
    | (some exact, _, st1) => (exact, st1)
    | (none, possibles, st1) => (ptrMacroPick (dnsFqdn target) possibles, st1)

/-- The substitution for one macro letter, before case-escaping and
transformers; `none` models the panic of `sender[:LastIndex(sender, "@")]`
when the sender has no `@` (Go slices with a negative index).  The `o`
letter does not panic without an `@`: `sender[-1+1:]` is the whole
string. -/
def macroLetterValue (c : Checker) (st : Result) (domain : GoStr) (exp : Bool) (letter : Char) :
    Option (GoStr × Option GoStr × Result) :=
  match lowerChar letter with
  | 's' => some (st.sender, none, st)
  | 'l' =>
    match lastIndexOf '@' st.sender with
    | some i => some (st.sender.take i, none, st)
    | none => none
  | 'o' =>
    match lastIndexOf '@' st.sender with
    | some i => some (trimDotSuffix (st.sender.drop (i + 1)), none, st)
    | none => some (trimDotSuffix st.sender, none, st)
  | 'd' => some (trimDotSuffix domain, none, st)
  | 'i' =>
    match st.ip with
    | .v4 a => some (ipv4Dotted a, none, st)
    | .v6 a => some (ipv6Nibbled a, none, st)
  | 'p' =>
    let out := expandPtrM c st domain
    some (out.1, none, out.2)
  | 'h' => some (st.helo, none, st)
  | 'c' =>
    if !exp then some ([], some (("c macro not allowed outside exp").data), st)
    else some (st.ip.str, none, st)
  | 'r' =>
    if !exp then some ([], some (("r macro not allowed outside exp").data), st)
    else some (c.Hostname, none, st)
  | 't' =>
    if !exp then some ([], some (("t macro not allowed outside exp").data), st)
    else some (printNat c.now, none, st)
  | 'v' =>
    if st.ip.isV4 then some (("in-addr").data, none, st) else some (("ip6").data, none, st)
  | _ => some ([], some (("impossible macro-letter").data), st)

/-- The transformer chain of `expandMacro`: URL-escape for an upper-case
letter, then split / reverse / keep-rightmost-N / rejoin with dots when
any transformer component is present. -/
def macroTransform (letter : Char) (digits : GoStr) (rflag : Bool) (delims : GoStr)
    (replacement : GoStr) : GoStr :=
  let replacement :=
    if 65 ≤ letter.toNat && letter.toNat ≤ 90 then rfc3986Escape replacement else replacement
  if !digits.isEmpty || rflag || !delims.isEmpty then
    let delims := if delims.isEmpty then ['.'] else delims
    let parts := splitAny delims replacement
    let parts := if rflag then parts.reverse else parts
    let parts :=
      if !digits.isEmpty then
        let limit := decVal digits
        if limit < parts.length then parts.drop (parts.length - limit) else parts
      else parts
    joinSep '.' parts
  else replacement

/-- The loop of `expandMacro`, with fuel: each iteration consumes at
least the `%` character, so `length + 1` fuel always suffices (proved
below); running out of fuel is conflated with the panic marker `none`. -/
def expandGo (c : Checker) (domain : GoStr) (exp : Bool) :
    Nat → GoStr → GoStr → Result → Option (GoStr × Option GoStr × Result)
  | 0, _, _, _ => none
  | fuel+1, cs, acc, st =>
    let pre := cs.takeWhile (· ≠ '%')
    match cs.dropWhile (· ≠ '%') with
    | [] => some (acc ++ pre, none, st)
    | _ :: rest =>
      match rest with
      | [] => some ([], some (("trailing % in macro expansion").data), st)
      | '%' :: t => expandGo c domain exp fuel t (acc ++ pre ++ ['%']) st
      | '-' :: t => expandGo c domain exp fuel t (acc ++ pre ++ ("%20").data) st
      | '_' :: t => expandGo c domain exp fuel t (acc ++ pre ++ [' ']) st
      | c0 :: t0 =>
        if c0 = '{' then
          match macroTokenMatch (c0 :: t0) with
          | none => some ([], some (("invalid macro").data), st)
          | some (letter, digits, rflag, delims, rest4) =>
            match macroLetterValue c st domain exp letter with
            | none => none
            | some (_, some e, st1) => some ([], some e, st1)
            | some (repl, none, st1) =>
              expandGo c domain exp fuel rest4
                (acc ++ pre ++ macroTransform letter digits rflag delims repl) st1
        else some ([], some (("invalid character following % in macro expansion").data), st)

/-- `expandMacro` from macro.go (the `ExpandMacro` wrapper only adds a
hook call); `none` models a panic. -/
def expandMacroFn (c : Checker) (domainSpec : GoStr) (st : Result) (domain : GoStr) (exp : Bool) :
    Option (GoStr × Option GoStr × Result) :=
  expandGo c domain exp (domainSpec.length + 1) domainSpec [] st

/-- The label-trimming loop of `ExpandDomainSpec`; the running length is
a Go `int` and may go negative, hence `Int`. -/
def trimDomainLoop : List GoStr → Int → GoStr × Option GoStr
  | [], _ => ([], some (("oddly long TLD").data))
  | p :: rest, length =>
    let length2 := length - (p.length : Int) - 1
    if length2 ≤ 253 then (joinSep '.' rest, none) else trimDomainLoop rest length2

/-- `ExpandDomainSpec` from macro.go: empty spec means the current
domain; otherwise expand and trim leading labels while longer than 253
octets. -/
def expandDomainSpecFn (c : Checker) (domainSpec : GoStr) (st : Result) (domain : GoStr)
    (exp : Bool) : Option (GoStr × Option GoStr × Result) :=
  if domainSpec.isEmpty then some (domain, none, st)
  else
    match expandMacroFn c domainSpec st domain exp with
    | none => none
    | some (target, some e, st1) => some (target, some e, st1)
    | some (target, none, st1) =>
      if target.length ≤ 253 then some (target, none, st1)
      else
        let out := trimDomainLoop (splitChar '.' target) (target.length : Int)
        some (out.1, out.2, st1)

/-! ## Mechanisms (mechanism.go) -/

/-- The tagged variant over the eight mechanism kinds.  `include` and
`exists` are Lean keywords, hence `incl` and `exst`; a/mx masks are the
prefix lengths of their dual-CIDR (`net.CIDRMask` values), ip4/ip6 carry
their parsed network. -/
inductive Mechanism where
  | all (q : ResultType)
  | incl (q : ResultType) (domainSpec : GoStr)
  | a (q : ResultType) (domainSpec : GoStr) (mask4 : Nat) (mask6 : Nat)
  | mx (q : ResultType) (domainSpec : GoStr) (mask4 : Nat) (mask6 : Nat)
  | ptr (q : ResultType) (domainSpec : GoStr)
  | ip4 (q : ResultType) (net : IPNetM)
  | ip6 (q : ResultType) (net : IPNetM)
  | exst (q : ResultType) (domainSpec : GoStr)
deriving DecidableEq, Repr

/-- The `ResultChar` map from mechanism.go; `none` models absence from
the map (`ok == false`). -/
def resultChar : ResultType → Option GoStr
  | .None => some []
  | .Neutral => some ['?']
  | .Pass => some []
  | .Fail => some ['-']
  | .Softfail => some ['~']
  | _ => none

/-- `mechanismString` from mechanism.go.  A mask argument of `none`
models the empty `net.IPMask{}` whose `Size()` returns bits 0. -/
def mechanismString (qualifier : ResultType) (name param : GoStr)
    (mask4 mask6 : Option Nat) : GoStr :=
  (match resultChar qualifier with
   | some m => m
   | none => [])
  ++ name
  ++ (if param.isEmpty then [] else ':' :: param)
  ++ (match mask4 with
      | some ones => if ones ≠ 32 then '/' :: printNat ones else []
      | none => [])
  ++ (match mask6 with
      | some ones => if ones ≠ 128 then '/' :: '/' :: printNat ones else []
      | none => [])

/-- The `String()` method of each mechanism. -/
def Mechanism.str : Mechanism → GoStr
  | .all q => mechanismString q (("all").data) [] none none
  | .incl q ds => mechanismString q (("include").data) ds none none
  | .a q ds m4 m6 => mechanismString q (("a").data) ds (some m4) (some m6)
  | .mx q ds m4 m6 => mechanismString q (("mx").data) ds (some m4) (some m6)
  | .ptr q ds => mechanismString q (("ptr").data) ds none none
  | .ip4 q n => mechanismString q (("ip4").data) (ipnetString n) none none
  | .ip6 q n => mechanismString q (("ip6").data) (ipnetString n) none none
  | .exst q ds => mechanismString q (("exists").data) ds none none

/-- Model of `v6CIDRRe = //[0-9]{1,3}$` (splitting off the match):
a match exists iff the string ends in one to three digits preceded by
`//`.  Returns the remaining text and the digit run. -/
def v6Split (s : GoStr) : Option (GoStr × GoStr) :=
  let r := s.reverse
  let ds := r.takeWhile isAsciiDigit
  if 1 ≤ ds.length && ds.length ≤ 3 then
    match r.drop ds.length with
    | '/' :: '/' :: rest => some (rest.reverse, ds.reverse)
    | _ => none
  else none

/-- Model of `v4CIDRRe = /[0-9]{1,2}$`, analogously. -/
def v4Split (s : GoStr) : Option (GoStr × GoStr) :=
  let r := s.reverse
  let ds := r.takeWhile isAsciiDigit
  if 1 ≤ ds.length && ds.length ≤ 2 then
    match r.drop ds.length with
    | '/' :: rest => some (rest.reverse, ds.reverse)
    | _ => none
  else none

/-- `dualCIDR` from mechanism.go: strip an optional `//v6` then an
optional `/v4` suffix; `Atoi` cannot fail on a digit run. -/
def dualCIDR (s : GoStr) : Except GoStr (GoStr × Nat × Nat) :=
  match v6Split s with
  | some (rem, ds6) =>
    let v6len := decVal ds6
    if v6len > 128 then .error (("invalid ipv6 cidr range in dual-cidr").data)
    else
      match v4Split rem with
      | some (rem2, ds4) =>
        let v4len := decVal ds4
        if v4len > 32 then .error (("invalid ipv4 cidr range in dual-cidr").data)
        else .ok (rem2, v4len, v6len)
      | none => .ok (rem, 32, v6len)
  | none =>
    match v4Split s with
    | some (rem2, ds4) =>
      let v4len := decVal ds4
      if v4len > 32 then .error (("invalid ipv4 cidr range in dual-cidr").data)
      else .ok (rem2, v4len, 128)
    | none => .ok (s, 32, 128)

/-- `NewMechanism` from mechanism.go. -/
def NewMechanism (raw : GoStr) : Except GoStr Mechanism :=
  match raw with
  | [] => .error (("empty mechanism").data)
  | _ :: _ =>
    let (qualifier, raw) :=
      match raw with
      | '+' :: t => (ResultType.Pass, t)
      | '-' :: t => (ResultType.Fail, t)
      | '~' :: t => (ResultType.Softfail, t)
      | '?' :: t => (ResultType.Neutral, t)
      | t => (ResultType.Pass, t)
    let notSep : Char → Bool := fun c => c ≠ ':' && c ≠ '/'
    let mtype := lowerStr (raw.takeWhile notSep)
    let (parameter, emptyParam) :=
      match raw.dropWhile notSep with
      | [] => (([] : GoStr), false)
      | ':' :: t => (t, t.isEmpty)
      | t => (t, false)
    if mtype = ("all").data then
      if !parameter.isEmpty then .error (("all doesn't take parameters").data)
      else .ok (.all qualifier)
    else if mtype = ("include").data then
      if parameter.isEmpty then .error (("include requires a domain spec").data)
      else if !validDomainSpec parameter then .error (("invalid domain-spec").data)
      else .ok (.incl qualifier parameter)
    else if mtype = ("a").data then
      if emptyParam then .error (("empty domain in a mechanism").data)
      else
        match dualCIDR parameter with
        | .error e => .error e
        | .ok (domainSpec, v4Mask, v6Mask) =>
          if !validOptionalDomainSpec domainSpec then .error (("invalid domain-spec").data)
          else .ok (.a qualifier domainSpec v4Mask v6Mask)
    else if mtype = ("mx").data then
      if emptyParam then .error (("empty domain in mx mechanism").data)
      else
        match dualCIDR parameter with
        | .error e => .error e
        | .ok (domainSpec, v4Mask, v6Mask) =>
          if !validOptionalDomainSpec domainSpec then .error (("invalid domain-spec").data)
          else .ok (.mx qualifier domainSpec v4Mask v6Mask)
    else if mtype = ("ptr").data then
      if emptyParam then .error (("empty domain in ptr mechanism").data)
      else if !validOptionalDomainSpec parameter then .error (("invalid domain-spec").data)
      else .ok (.ptr qualifier parameter)
    else if mtype = ("ip4").data then
      let addr := if parameter.contains '/' then parameter else parameter ++ ("/32").data
      match parseCIDRStrict addr with
      | none => .error (("invalid address format").data)
      | some p =>
        if !p.to4able then .error (("non-IP4 address in ip4").data)
        else .ok (.ip4 qualifier p.netm)
    else if mtype = ("ip6").data then
      let addr := if parameter.contains '/' then parameter else parameter ++ ("/128").data
      match parseCIDRStrict addr with
      | none => .error (("invalid address format").data)
      | some p => .ok (.ip6 qualifier p.netm)
    else if mtype = ("exists").data then
      if parameter.isEmpty then .error (("exists requires a domain spec").data)
      else if !validDomainSpec parameter then .error (("invalid domain-spec").data)
      else .ok (.exst qualifier parameter)
    else .error (("unrecognized mechanism").data)

/-! ## Record parsing (part_003: SPFRecord, ParseSPF) -/

structure SPFRecordM where
  mechanisms : List Mechanism
  exp : GoStr
  redirect : GoStr
  otherModifiers : List GoStr
deriving DecidableEq, Repr

/-- Model of `modifierRe = ^((?i)[a-z][a-z0-9_.-]*)=(.*)`: the name and
value of a modifier-shaped field. -/
def matchModifier (s : GoStr) : Option (GoStr × GoStr) :=
  match s with
  | [] => none
  | c :: rest =>
    if isAsciiAlpha c then
      let isNameChar : Char → Bool := fun x => isAlnum x || x = '_' || x = '.' || x = '-'
      match rest.dropWhile isNameChar with
      | '=' :: v => some (c :: rest.takeWhile isNameChar, v)
      | _ => none
    else none

def parseSPFFields : List GoStr → SPFRecordM → Except GoStr SPFRecordM
  | [], rec => .ok rec
  | f :: rest, rec =>
    match matchModifier f with
    | some (name, value) =>
      if lowerStr name = ("redirect").data then
        if !rec.redirect.isEmpty then .error (("multiple redirect modifiers").data)
        else if !validDomainSpec value then .error (("invalid domain-spec in redirect").data)
        else parseSPFFields rest { rec with redirect := value }
      else if lowerStr name = ("exp").data then
        if !rec.exp.isEmpty then .error (("multiple exp modifiers").data)
        else if !validDomainSpec value then .error (("invalid domain-spec in exp").data)
        else parseSPFFields rest { rec with exp := value }
      else
        if !MacroIsValid value then .error (("invalid macro-string in modifier").data)
        else parseSPFFields rest { rec with otherModifiers := rec.otherModifiers ++ [f] }
    | none =>
      match NewMechanism f with
      | .error e => .error (("In field ").data ++ f ++ (": ").data ++ e)
      | .ok m => parseSPFFields rest { rec with mechanisms := rec.mechanisms ++ [m] }

/-- `ParseSPF` from part_003. -/
def ParseSPF (s : GoStr) : Except GoStr SPFRecordM :=
  match goFields s with
  | [] => .error (("empty record").data)
  | f0 :: rest =>
    if lowerStr f0 ≠ ("v=spf1").data then .error (("record doesn't begin with v=spf1").data)
    else parseSPFFields rest ⟨[], [], [], []⟩

/-! ## Mechanism evaluation (mechanism.go, ptr.go) -/

/-- The recursive entry used by `include` and `redirect` (`c.checkHost`);
passed as a function so the list walks stay structurally recursive. -/
abbrev RecurseFn := Result → GoStr → Bool → Bool → Option (ResultType × Result)

/-- The record-matching loop of `MechanismA.Evaluate`: first A/AAAA
record whose network (with the mechanism's family mask) contains the
client IP. -/
def aRecLoop (m4 m6 : Nat) (ip : IP) : List RR → Bool
  | [] => false
  | .a rec :: rest => if ipMaskContains (.v4 rec) m4 ip then true else aRecLoop m4 m6 ip rest
  | .aaaa rec :: rest => if ipMaskContains (.v6 rec) m6 ip then true else aRecLoop m4 m6 ip rest
  | _ :: rest => aRecLoop m4 m6 ip rest

/-- The MX walk of `MechanismMX.Evaluate` with its address-count limit;
the `rr.(*dns.MX)` assertion cannot fail because of the rrtype filter. -/
def mxLoop (c : Checker) (q : ResultType) (qtype : Nat) (mask : Nat) :
    List RR → Nat → Result → ResultType × Option GoStr × Result
  | [], _, st => (.None, none, st)
  | rr :: rest, mxcount, st =>
    match rr with
    | .mx _ host =>
      let mxcount := mxcount + 1
      if mxcount > c.MXAddressLimit then
        (.Permerror, some (("limit of MX results exceeded").data), st)
      else
        let out := lookupAddresses c host qtype st
        if out.rt ≠ .None then (out.rt, out.err, out.st)
        else if out.addrs.any (fun address => ipMaskContains address mask st.ip) then
          (q, none, out.st)
        else mxLoop c q qtype mask rest mxcount out.st
    | _ => mxLoop c q qtype mask rest mxcount st

/-- The forward-confirmation walk of `MechanismPTR.Evaluate`: skip PTR
hostnames outside the target, skip hostnames whose forward lookup errors,
match when a validated hostname's addresses include the client IP. -/
def ptrMechLoop (c : Checker) (q : ResultType) (qtype : Nat) (target : GoStr) :
    List RR → Result → ResultType × Option GoStr × Result
  | [], st => (.None, none, st)
  | rr :: rest, st =>
    match rr with
    | .ptr hostname =>
      if !dnsIsSubDomain target hostname then ptrMechLoop c q qtype target rest st
      else
        let out := lookupAddresses c hostname qtype st
        match out.err with
        | some _ => ptrMechLoop c q qtype target rest out.st
        | none =>
          if out.addrs.any (fun address => ipEqual address st.ip) then (q, none, out.st)
          else ptrMechLoop c q qtype target rest out.st
    | _ => ptrMechLoop c q qtype target rest st

/-- The `Evaluate` method of each mechanism, with the recursive
`checkHost` entry abstracted as `recurse`.  Returns (result, error,
state); `none` models a panic inside macro expansion. -/
def evalMechanism (c : Checker) (recurse : RecurseFn) (m : Mechanism) (st : Result)
    (domain : GoStr) : Option (ResultType × Option GoStr × Result) :=
  match m with
  | .all q => some (q, none, st)
  | .incl q ds =>
    match expandDomainSpecFn c ds st domain false with
    | none => none
    | some (_, some e, st1) => some (.Permerror, some e, st1)
    | some (dom, none, st1) =>
      if !validDomainName dom then some (.None, some (("invalid hostname").data ++ dom), st1)
      else
        match recurse st1 (dnsFqdn dom) true false with
        | none => none
        | some (includeResult, st2) =>
          match includeResult with
          | .Pass => some (q, none, st2)
          | .Fail => some (.None, none, st2)
          | .Softfail => some (.None, none, st2)
          | .Neutral => some (.None, none, st2)
          | .Temperror => some (.Temperror, none, st2)
          | .Permerror => some (.Permerror, none, st2)
          | .None => some (.Permerror, none, st2)
  | .a q ds m4 m6 =>
    let st := { st with DNSQueries := st.DNSQueries + 1 }
    let qtype := if st.ip.isV4 then typeA else typeAAAA
    match expandDomainSpecFn c ds st domain false with
    | none => none
    | some (_, some e, st1) => some (.Permerror, some e, st1)
    | some (target, none, st1) =>
      if !validDomainName target then some (.None, some (("invalid hostname").data ++ target), st1)
      else
        let out := lookupDNS c target qtype st1
        if out.rt ≠ .None then some (out.rt, out.err, out.st)
        else if aRecLoop m4 m6 out.st.ip out.rrs then some (q, none, out.st)
        else some (.None, none, out.st)
  | .mx q ds m4 m6 =>
    let st := { st with DNSQueries := st.DNSQueries + 1 }
    let (qtype, mask) := if st.ip.isV4 then (typeA, m4) else (typeAAAA, m6)
    match expandDomainSpecFn c ds st domain false with
    | none => none
    | some (_, some e, st1) => some (.Permerror, some e, st1)
    | some (target, none, st1) =>
      if !validDomainName target then some (.None, some (("invalid hostname").data ++ target), st1)
      else
        let out := lookupDNS c target typeMX st1
        if out.rt ≠ .None then some (out.rt, out.err, out.st)
        else some (mxLoop c q qtype mask out.rrs 0 out.st)
  | .ptr q ds =>
    let qtype := if st.ip.isV4 then typeA else typeAAAA
    match expandDomainSpecFn c ds st domain false with
    | none => none
    | some (_, some e, st1) => some (.Permerror, some e, st1)
    | some (target0, none, st1) =>
      let target := dnsFqdn target0
      if !validDomainName target then some (.Fail, some (("invalid hostname").data ++ target), st1)
      else
        let rev := dnsReverseAddr st1.ip
        let out := lookupDNS c rev typePTR st1
        match out.err with
        | some e => some (out.rt, some e, out.st)
        | none =>
          let rrs := if out.rrs.length > c.PtrAddressLimit then out.rrs.take c.PtrAddressLimit else out.rrs
          some (ptrMechLoop c q qtype target rrs out.st)
  | .ip4 q n => some (if ipnetContains n st.ip then q else .None, none, st)
  | .ip6 q n => some (if ipnetContains n st.ip then q else .None, none, st)
  | .exst q ds =>
    let st := { st with DNSQueries := st.DNSQueries + 1 }
    match expandDomainSpecFn c ds st domain false with
    | none => none
    | some (_, some e, st1) => some (.Permerror, some e, st1)
    | some (target, none, st1) =>
      if !validDomainName target then some (.None, some (("invalid hostname").data ++ target), st1)
      else
        let out := lookupAddresses c target typeA st1
        if out.rt ≠ .None then some (out.rt, out.err, out.st)
        else if out.addrs.isEmpty then some (.None, none, out.st)
        else some (q, none, out.st)

/-! ## The check_host evaluator (part_003: checkHostCore) -/

/-- The sender normalisation at the top of `checkHostCore`: prepend
`postmaster@` when there is no local part, `postmaster` when the sender
starts with `@`. -/
def normalizeSender (s : GoStr) : GoStr :=
  let s1 := if !s.contains '@' then ("postmaster@").data ++ s else s
  if startsWithAt s1 then ("postmaster").data ++ s1 else s1

/-- The explanation fetch of `checkHostCore` (the body of the
`err == nil && !include && resultType == Fail && Exp != ""` branch):
expand the exp domain-spec (failure: permerror), validate it (failure:
permerror), TXT-query it directly through the resolver, and on a clean
single-TXT answer store its macro expansion, discarding any expansion
error; the terminal result here is the guarding `Fail`. -/
def explanationStep (c : Checker) (expSpec domain : GoStr) (st : Result) :
    Option (ResultType × Result) :=
  match expandDomainSpecFn c expSpec st domain false with
  | none => none
  | some (_, some e, st1) => some (.Permerror, { st1 with error := some e })
  | some (target, none, st1) =>
    if !validDomainName target then some (.Permerror, st1)
    else
      match c.resolver target typeTXT with
      | .error _ => some (.Fail, st1)
      | .ok m =>
        if m.rcode = rcodeSuccess && m.answer.length = 1 then
          match m.answer with
          | .txt ts :: _ =>
            match expandMacroFn c (joinAll ts) st1 domain true with
            | none => none
            | some (expansion, _, st2) => some (.Fail, { st2 with Explanation := expansion })
          | _ => some (.Fail, st1)
        else some (.Fail, st1)

/-- Outcome of the mechanism walk: a terminal result, or falling off the
end of the record. -/
inductive WalkOut where
  | halt (rt : ResultType) (st : Result)
  | through (st : Result)

/-- The mechanism walk of `checkHostCore`: evaluate each term in order,
record its result, enforce the DNS budget after each term, stop at the
first non-`none` result (fetching the explanation on a terminal `fail`
when applicable). -/
def walkTerms (c : Checker) (recurse : RecurseFn) (expSpec : GoStr) (isInclude : Bool)
    (domain : GoStr) : List Mechanism → Result → Option WalkOut
  | [], st => some (.through st)
  | m :: rest, st =>
    match evalMechanism c recurse m st domain with
    | none => none
    | some (rt, err, st1) =>
      let st2 := { st1 with rtype := rt }
      if st2.DNSQueries > c.DNSLimit then
        some (.halt .Permerror { st2 with error := some (("limit of dns queries exceeded").data) })
      else if rt ≠ .None then
        let st3 := { st2 with error := err }
        if err = none && !isInclude && rt = .Fail && !expSpec.isEmpty then
          match explanationStep c expSpec domain st3 with
          | none => none
          | some (rt2, st4) => some (.halt rt2 st4)
        else some (.halt rt st3)
      else walkTerms c recurse expSpec isInclude domain rest st2

/-- `checkHostCore` from part_003 (the `checkHost` wrapper only adds a
hook call).  The `fuel` argument models Go's unbounded recursion; in any
run it is bounded by the DNS budget, and exhausted fuel returns a
harmless default. -/
def checkHostCore (c : Checker) :
    Nat → Result → GoStr → Bool → Bool → Option (ResultType × Result)
  | 0, st, _, _, _ => some (.Permerror, st)
  | fuel+1, st, domain, isInclude, isRedirect =>
    if !(dnsIsDomainName domain).2 then
      some (.None, { st with error := some (("invalid domain").data) })
    else if !dnsIsFqdn domain then
      some (.None, { st with error := some (("domain not fully qualified").data) })
    else
      let st := { st with sender := normalizeSender st.sender }
      let st := { st with DNSQueries := st.DNSQueries + 1 }
      if st.DNSQueries > c.DNSLimit then
        some (.Permerror, { st with error := some (("limit of dns queries exceeded").data) })
      else
        match getSPFRecord c domain with
        | (_, resultType, some e) => some (resultType, { st with error := some e })
        | (record, resultType, none) =>
          if record.isEmpty then
            if isRedirect then some (.Permerror, st) else some (resultType, st)
          else if hasInvalidChar record then
            some (.Permerror, { st with error := some (("invalid character").data) })
          else
            match ParseSPF record with
            | .error e => some (.Permerror, { st with error := some e })
            | .ok rec =>
              match walkTerms c (fun s d i r => checkHostCore c fuel s d i r) rec.exp
                  isInclude domain rec.mechanisms st with
              | none => none
              | some (.halt rt st1) => some (rt, st1)
              | some (.through st1) =>
                if !rec.redirect.isEmpty then
                  match expandDomainSpecFn c rec.redirect st1 domain false with
                  | none => none
                  | some (_, some _, st2) => some (.Permerror, st2)
                  | some (target, none, st2) =>
                    if !validDomainName target then some (.Permerror, st2)
                    else checkHostCore c fuel st2 (dnsFqdn target) false true
                else some (.Neutral, st1)

/-- `CheckHost` from part_003: build the initial state and run the
evaluator. -/
def CheckHost (c : Checker) (fuel : Nat) (ip : IP) (domain sender helo : GoStr) :
    Option (ResultType × Result) :=
  let st : Result := ⟨.None, none, 0, 0, [], false, ip, sender, helo⟩
  match checkHostCore c fuel st domain false false with
  | none => none
  | some (rt, st1) => some (rt, { st1 with rtype := rt })

/-! ## Definitions used by the claim statements -/

/-- A qualifier in the sense of RFC 7208 §4.6.2. -/
def validQualifier (q : ResultType) : Bool :=
  q = .Pass || q = .Fail || q = .Softfail || q = .Neutral

/-- Well-formedness of a mechanism value as the parser produces it: a
real qualifier, valid domain-specs, in-range prefix lengths, and ip4/ip6
networks of the matching family with masked addresses (ip6 not 4-in-6,
whose dotted re-serialisation cannot re-parse). -/
def wfMechanism : Mechanism → Bool
  | .all q => validQualifier q
  | .incl q ds => validQualifier q && !ds.isEmpty && validDomainSpec ds
  | .a q ds m4 m6 => validQualifier q && validOptionalDomainSpec ds && m4 ≤ 32 && m6 ≤ 128
  | .mx q ds m4 m6 => validQualifier q && validOptionalDomainSpec ds && m4 ≤ 32 && m6 ≤ 128
  | .ptr q ds => validQualifier q && validOptionalDomainSpec ds
  | .ip4 q n => validQualifier q && n.v4 && n.ones ≤ 32 && n.addr < 2 ^ 32 &&
      (n.addr &&& maskBits n.ones 32) = n.addr
  | .ip6 q n => validQualifier q && !n.v4 && n.ones ≤ 128 && n.addr < 2 ^ 128 &&
      (n.addr &&& maskBits n.ones 128) = n.addr && !isV4Mapped n.addr
  | .exst q ds => validQualifier q && !ds.isEmpty && validDomainSpec ds

/-- The record-selection predicate as the specification words it: begins
exactly with `v=spf1` followed by whitespace or end-of-string.  Kept for
comparison against the code's `spfPrefixMatch`, which requires a space
character and matches case-insensitively. -/
def spfPrefixMatchSpec (s : GoStr) : Bool :=
  s.take 6 = ("v=spf1").data && (s.drop 6 = [] || ((s.drop 6).head?.map isGoSpace) = some true)

/-- A recursion stub yielding `pass`, for exercising a single mechanism. -/
def constRecurse : RecurseFn := fun st _ _ _ => some (.Pass, st)

/-- A successful TXT response holding one record. -/
def txtMsg (rec : GoStr) : Except GoStr Msg := .ok ⟨rcodeSuccess, [.txt [rec]]⟩

/-- A successful response with no answers (a void lookup). -/
def voidMsg : Except GoStr Msg := .ok ⟨rcodeSuccess, []⟩

def testChecker (r : Resolver) : Checker :=
  ⟨r, 10, 10, 2, 10, ("checker.local").data, 1700000000⟩

def testState (ip : IP) (sender : GoStr) : Result :=
  ⟨.None, none, 0, 0, [], false, ip, sender, []⟩

/-- Zone for C1/C6: one simple policy, everything else void. -/
def zoneSimple : Resolver := fun name qtype =>
  if name = ("example.com.").data && qtype = typeTXT then txtMsg (("v=spf1 -all").data)
  else voidMsg

def simpleChecker : Checker := testChecker zoneSimple

def v4State : Result := testState (.v4 0x01020304) (("x@example.com").data)

/-- Zone for C2: terminal fail with an exp modifier whose domain-spec
uses the `c` macro, which is invalid outside explanation text. -/
def zoneC2 : Resolver := fun name qtype =>
  if name = ("example.com.").data && qtype = typeTXT then
    txtMsg (("v=spf1 -all exp=%{c}.example.com").data)
  else voidMsg

def c2Checker : Checker := testChecker zoneC2

/-- Zone for C4: every query yields SERVFAIL without a transport error. -/
def zoneServfail : Resolver := fun _ _ => .ok ⟨rcodeServerFailure, []⟩

def c4Checker : Checker := testChecker zoneServfail

/-- Zone for C5: PTR queries fail at the transport, the rest are void. -/
def zonePtrErr : Resolver := fun _ qtype =>
  if qtype = typePTR then .error (("i/o timeout").data) else voidMsg

def c5Checker : Checker := testChecker zonePtrErr

/-- Zone for C7: two void `exists` targets, a void PTR reverse zone, and
an A record for the hostname the `%{p}` macro falls back to, so that the
third void lookup happens inside `%{p}` and its permerror is swallowed. -/
def zoneC7 : Resolver := fun name qtype =>
  if name = ("example.com.").data && qtype = typeTXT then
    txtMsg (("v=spf1 exists:a.example.com exists:b.example.com exists:%{p}.example.com -all").data)
  else if name = ("unknown.example.com.").data && qtype = typeA then .ok ⟨rcodeSuccess, [.a 0x09090909]⟩
  else voidMsg

def c7Checker : Checker := testChecker zoneC7

/-- Zone for C8: a single TXT record whose version section is terminated
by a tab instead of a space. -/
def zoneC8 : Resolver := fun name qtype =>
  if name = ("example.com.").data && qtype = typeTXT then txtMsg (("v=spf1\t-all").data)
  else voidMsg

def c8Checker : Checker := testChecker zoneC8

instance {α β : Type} [DecidableEq α] [DecidableEq β] : DecidableEq (Except α β) := fun x y =>
  match x, y with
  | .error a, .error b =>
    if h : a = b then .isTrue (by rw [h]) else .isFalse (fun hc => by cases hc; exact h rfl)
  | .ok a, .ok b =>
    if h : a = b then .isTrue (by rw [h]) else .isFalse (fun hc => by cases hc; exact h rfl)
  | .error _, .ok _ => .isFalse (fun hc => by cases hc)
  | .ok _, .error _ => .isFalse (fun hc => by cases hc)

/-! ## Claim theorems -/

/-- Claim C1.  The ptr mechanism issues DNS queries (the reverse PTR
lookup and forward confirmations) yet, unlike the a / mx / exists
evaluators, never increments `DNSQueries`: evaluating `ptr` leaves the
counter at 0 while evaluating `a` on the same state raises it to 1.
This contradicts the documented invariant that every DNS-issuing
mechanism increments the counter exactly once at entry. -/
theorem c1_ptr_mechanism_skips_dns_counter :
    ((evalMechanism simpleChecker constRecurse (.ptr .Pass []) v4State
        (("example.com.").data)).map (fun t => t.2.2.DNSQueries) = some 0)
  ∧ ((evalMechanism simpleChecker constRecurse (.a .Pass [] 32 128) v4State
        (("example.com.").data)).map (fun t => t.2.2.DNSQueries) = some 1) := by
  constructor
  · decide
  · decide

/-- Claim C5 (counterexample to the mechanism half).  When the reverse
PTR lookup fails with a transport error, the ptr mechanism returns the
lookup's classification `temperror`, not `none`; the `%{p}` macro does
return the literal `unknown`. -/
theorem c5_ptr_transport_error_behaviour :
    ((evalMechanism c5Checker constRecurse (.ptr .Pass []) v4State
        (("example.com.").data)).map (fun t => t.1) = some .Temperror)
  ∧ (expandPtrM c5Checker v4State (("example.com.").data)).1 = ("unknown").data := by
  constructor
  · decide
  · decide

/-- Claim C2 (counterexample).  A record whose only mechanism is `-all`
with `exp=%{c}.example.com`: the terminal result is `fail`, the exp
domain-spec expansion fails (`c` outside explanation text), and the
evaluation returns `permerror` — the failure is not swallowed. -/
theorem c2_counterexample :
    (CheckHost c2Checker 20 (.v4 0x08080808) (("example.com.").data)
        (("x@example.com").data) []).map Prod.fst = some .Permerror := by
  decide

/-- Claim C4 (counterexample).  A fetch classified `temperror` (SERVFAIL
with no transport error) while following a redirect is returned as
`permerror`, not as the fetch's classification. -/
theorem c4_counterexample :
    getSPFRecord c4Checker (("example.com.").data) = ([], .Temperror, none)
  ∧ (checkHostCore c4Checker 5 v4State (("example.com.").data) false true).map Prod.fst
      = some .Permerror := by
  constructor
  · decide
  · decide

/-- Claim C6 (counterexample).  A ptr mechanism whose domain-spec
expands to an invalid hostname yields `fail` with a diagnostic error,
not the uniform `none` the claim states for all five kinds. -/
theorem c6_counterexample :
    (evalMechanism simpleChecker constRecurse (.ptr .Pass (("%{h}").data))
        { v4State with helo := ("x").data } (("example.com.").data)).map
      (fun t => (t.1, t.2.1.isSome)) = some (.Fail, true) := by
  decide

/-- Claim C7 (counterexample).  An evaluation that completes with result
`pass` and `void_lookups = 3 > VoidQueryLimit = 2`: the third void answer
happens inside `%{p}` macro expansion, whose permerror is swallowed. -/
theorem c7_counterexample :
    (CheckHost c7Checker 20 (.v4 0x01020304) (("example.com.").data)
        (("x@example.com").data) []).map (fun p => (p.1, p.2.VoidLookups)) = some (.Pass, 3)
  ∧ c7Checker.VoidQueryLimit = 2 := by
  constructor
  · decide
  · decide

/-- Claim C8 (counterexample).  The joined record `v=spf1<TAB>-all`
begins with `v=spf1` followed by whitespace, so the claim counts it as
kept; the code requires a space character, rejects it, and the fetch
classifies `none` instead of returning the record. -/
theorem c8_counterexample :
    spfPrefixMatchSpec (("v=spf1\t-all").data) = true
  ∧ spfPrefixMatch (("v=spf1\t-all").data) = false
  ∧ getSPFRecord c8Checker (("example.com.").data) = ([], .None, none) := by
  refine ⟨by decide, by decide, by decide⟩

/-- Claim C9 (counterexample).  A mechanism carrying the non-qualifier
result code `none` serialises with no qualifier character (the
`ResultChar` table maps `none` to the empty string), so re-parsing yields
the default `pass` qualifier and not an equal mechanism. -/
theorem c9_counterexample :
    (Mechanism.all .None).str = ("all").data
  ∧ NewMechanism ((Mechanism.all .None).str) = .ok (Mechanism.all .Pass)
  ∧ Mechanism.all .Pass ≠ Mechanism.all .None := by
  refine ⟨by decide, by decide, by decide⟩

/-- Claim C3.  For every include mechanism whose domain-spec expands
without error to a valid hostname, the result of the recursive
check-host call on the expanded (fqdn) domain maps to the include's own
result exactly as claimed: `pass` matches and yields the include's
qualifier, `fail` / `softfail` / `neutral` yield `none` (no match, the
walk continues), `temperror` stays `temperror`, and both `permerror`
and `none` become `permerror`. -/
theorem c3_include_result_mapping (c : Checker) (recurse : RecurseFn) (q : ResultType)
    (ds domain dom : GoStr) (st st1 st2 : Result) (r : ResultType)
    (hexp : expandDomainSpecFn c ds st domain false = some (dom, none, st1))
    (hval : validDomainName dom = true)
    (hrec : recurse st1 (dnsFqdn dom) true false = some (r, st2)) :
    evalMechanism c recurse (.incl q ds) st domain =
      some (match r with
            | .Pass => (q, none, st2)
            | .Fail => ((.None : ResultType), none, st2)
            | .Softfail => ((.None : ResultType), none, st2)
            | .Neutral => ((.None : ResultType), none, st2)
            | .Temperror => ((.Temperror : ResultType), none, st2)
            | .Permerror => ((.Permerror : ResultType), none, st2)
            | .None => ((.Permerror : ResultType), none, st2)) := by
  simp only [evalMechanism, hexp, hval]
  cases r <;> simp [hrec]

theorem c3_witness :
    evalMechanism simpleChecker constRecurse (.incl .Softfail (("b.example.com").data))
      v4State (("example.com.").data) = some (.Softfail, none, v4State) :=
  c3_include_result_mapping simpleChecker constRecurse .Softfail (("b.example.com").data)
    (("example.com.").data) (("b.example.com").data) v4State v4State v4State .Pass
    (by decide) (by decide) (by decide)

/-- Claim C7, gateway half (holds as claimed).  Whenever the resolver
answers with NXDOMAIN, or with success and zero answer records, the
gateway `lookupDNS` increments the void-lookup counter; if the counter
then exceeds `VoidQueryLimit` the lookup classifies `permerror` with an
explanatory error and no records, and otherwise it returns an empty
record set classified `none` with no error.  (The claimed consequence
for whole evaluations fails; see the counterexample.) -/
theorem c7_void_gateway (c : Checker) (host : GoStr) (qtype : Nat) (st : Result) (m : Msg)
    (hres : c.resolver (dnsFqdn host) qtype = .ok m)
    (hvoid : m.rcode = rcodeNameError ∨ (m.rcode = rcodeSuccess ∧ m.answer = [])) :
    (lookupDNS c host qtype st).st.VoidLookups = st.VoidLookups + 1
  ∧ (st.VoidLookups + 1 > c.VoidQueryLimit →
      (lookupDNS c host qtype st).rt = .Permerror ∧ (lookupDNS c host qtype st).err.isSome
        ∧ (lookupDNS c host qtype st).rrs = [])
  ∧ (¬ st.VoidLookups + 1 > c.VoidQueryLimit →
      (lookupDNS c host qtype st).rt = .None ∧ (lookupDNS c host qtype st).err = none
        ∧ (lookupDNS c host qtype st).rrs = []) := by
  have hv : (decide (m.rcode = rcodeNameError) ||
      (decide (m.rcode = rcodeSuccess) && m.answer.isEmpty)) = true := by
    rcases hvoid with h | ⟨h1, h2⟩
    · simp [h]
    · simp [h1, h2]
  by_cases h : st.VoidLookups + 1 > c.VoidQueryLimit
  · simp [lookupDNS, hres, hv, h]
  · simp [lookupDNS, hres, hv, h]

theorem c7_witness :
    (lookupDNS simpleChecker (("a.example.com").data) typeA v4State).st.VoidLookups = 1
  ∧ (lookupDNS simpleChecker (("a.example.com").data) typeA v4State).rt = .None :=
  have h := c7_void_gateway simpleChecker (("a.example.com").data) typeA v4State ⟨rcodeSuccess, []⟩
    (by decide) (Or.inr ⟨rfl, rfl⟩)
  ⟨h.1, (h.2.2 (by decide)).1⟩

/-- Claim C8, amended.  For every successful TXT response, the fetcher
joins each TXT record's text fragments and keeps exactly the joined
strings matched by the code's prefix test (ASCII-case-insensitive
`v=spf1` followed by a space character or end of string — not arbitrary
whitespace as the claim says): zero kept records classify `none`,
exactly one kept record is returned, and two or more classify
`permerror`. -/
theorem c8_record_selection (c : Checker) (domain : GoStr) (m : Msg)
    (hres : c.resolver (dnsFqdn domain) typeTXT = .ok m)
    (hrc : m.rcode = rcodeSuccess) :
    ((txtStrings m.answer).filter spfPrefixMatch = [] →
        getSPFRecord c domain = ([], .None, none))
  ∧ (∀ r, (txtStrings m.answer).filter spfPrefixMatch = [r] →
        getSPFRecord c domain = (r, .None, none))
  ∧ (∀ r1 r2 rest, (txtStrings m.answer).filter spfPrefixMatch = r1 :: r2 :: rest →
        getSPFRecord c domain = ([], .Permerror, none)) := by
  refine ⟨?_, ?_, ?_⟩
  · intro h
    simp [getSPFRecord, hres, hrc, h]
  · intro r h
    simp [getSPFRecord, hres, hrc, h]
  · intro r1 r2 rest h
    simp [getSPFRecord, hres, hrc, h]

theorem c8_witness :
    getSPFRecord simpleChecker (("example.com.").data) = (("v=spf1 -all").data, .None, none) :=
  (c8_record_selection simpleChecker (("example.com.").data) ⟨rcodeSuccess, [.txt [("v=spf1 -all").data]]⟩
    (by decide) rfl).2.1 (("v=spf1 -all").data) (by decide)

/-- Claim C2, amended.  In the explanation step run when the terminal
result is `fail`: a failure to macro-expand the exp domain-spec aborts
with `permerror` carrying the expansion error, and an expanded name the
hostname validator rejects also aborts with `permerror` — contrary to
the claim, these failures are not swallowed.  Every later failure (TXT
lookup, answer count, expansion of the explanation text) is swallowed:
once the domain-spec expands to a valid hostname the step always
returns `fail`. -/
theorem c2_explanation_swallowing (c : Checker) (expSpec domain : GoStr) (st : Result) :
    (∀ t e st1, expandDomainSpecFn c expSpec st domain false = some (t, some e, st1) →
        explanationStep c expSpec domain st = some (.Permerror, { st1 with error := some e }))
  ∧ (∀ t st1, expandDomainSpecFn c expSpec st domain false = some (t, none, st1) →
        validDomainName t = false →
        explanationStep c expSpec domain st = some (.Permerror, st1))
  ∧ (∀ t st1 rt st2, expandDomainSpecFn c expSpec st domain false = some (t, none, st1) →
        validDomainName t = true →
        explanationStep c expSpec domain st = some (rt, st2) → rt = .Fail) := by
  refine ⟨?_, ?_, ?_⟩
  · intro t e st1 h
    simp [explanationStep, h]
  · intro t st1 h hv
    simp [explanationStep, h, hv]
  · intro t st1 rt st2 h hv hstep
    unfold explanationStep at hstep
    rw [h] at hstep
    dsimp only at hstep
    simp only [hv, Bool.not_true] at hstep
    rw [if_neg (by simp)] at hstep
    repeat' split at hstep
    all_goals simp_all

theorem c2_witness :
    explanationStep c2Checker (("%{c}.example.com").data) (("example.com.").data) v4State
      = some (.Permerror, { v4State with error := some (("c macro not allowed outside exp").data) }) :=
  (c2_explanation_swallowing c2Checker (("%{c}.example.com").data) (("example.com.").data) v4State).1
    [] (("c macro not allowed outside exp").data) v4State (by decide)

/-- Claim C4, amended.  After the SPF record fetch inside check-host:
when the fetch reports an error value its classification is returned
unchanged; when no record text and no error were produced, a caller
following a redirect gets `permerror` whatever the classification was
(this is where the claim fails: a SERVFAIL fetch classifies `temperror`
yet is upgraded), and a caller not following a redirect gets the
fetch's classification. -/
theorem c4_fetch_classification (c : Checker) (fuel : Nat) (st : Result) (domain : GoStr)
    (inc red : Bool)
    (hdom : (dnsIsDomainName domain).2 = true) (hfq : dnsIsFqdn domain = true)
    (hlim : ¬ st.DNSQueries + 1 > c.DNSLimit) :
    (∀ rec rt e, getSPFRecord c domain = (rec, rt, some e) →
        (checkHostCore c (fuel+1) st domain inc red).map Prod.fst = some rt)
  ∧ (∀ rt, getSPFRecord c domain = ([], rt, none) → red = true →
        (checkHostCore c (fuel+1) st domain inc red).map Prod.fst = some .Permerror)
  ∧ (∀ rt, getSPFRecord c domain = ([], rt, none) → red = false →
        (checkHostCore c (fuel+1) st domain inc red).map Prod.fst = some rt) := by
  refine ⟨?_, ?_, ?_⟩
  · intro rec rt e hfetch
    simp [checkHostCore, hdom, hfq, hfetch, hlim]
  · intro rt hfetch hred
    simp [checkHostCore, hdom, hfq, hfetch, hlim, hred]
  · intro rt hfetch hred
    simp [checkHostCore, hdom, hfq, hfetch, hlim, hred]

theorem c4_witness :
    (checkHostCore c4Checker 5 v4State (("example.com.").data) false true).map Prod.fst
      = some .Permerror :=
  (c4_fetch_classification c4Checker 4 v4State (("example.com.").data) false true
    (by decide) (by decide) (by decide)).2.1 .Temperror (by decide) rfl

/-- Claim C6, amended.  Every mechanism evaluator that takes a
domain-spec (include, a, mx, ptr, exists) first macro-expands it and
validates the expansion with the hostname validator; an expansion
failure uniformly yields `permerror` with the expansion's error, and an
invalid expanded hostname yields `none` with a diagnostic error for
include, a, mx and exists — but `fail` for ptr, which is where the
claimed uniformity breaks. -/
theorem c6_domain_spec_error_classes (c : Checker) (recurse : RecurseFn) (q : ResultType)
    (ds domain : GoStr) (st : Result) (m4 m6 : Nat) :
    (∀ t e st1, expandDomainSpecFn c ds st domain false = some (t, some e, st1) →
        evalMechanism c recurse (.incl q ds) st domain = some (.Permerror, some e, st1))
  ∧ (∀ t e st1,
        expandDomainSpecFn c ds { st with DNSQueries := st.DNSQueries + 1 } domain false
          = some (t, some e, st1) →
        evalMechanism c recurse (.a q ds m4 m6) st domain = some (.Permerror, some e, st1))
  ∧ (∀ t e st1,
        expandDomainSpecFn c ds { st with DNSQueries := st.DNSQueries + 1 } domain false
          = some (t, some e, st1) →
        evalMechanism c recurse (.mx q ds m4 m6) st domain = some (.Permerror, some e, st1))
  ∧ (∀ t e st1, expandDomainSpecFn c ds st domain false = some (t, some e, st1) →
        evalMechanism c recurse (.ptr q ds) st domain = some (.Permerror, some e, st1))
  ∧ (∀ t e st1,
        expandDomainSpecFn c ds { st with DNSQueries := st.DNSQueries + 1 } domain false
          = some (t, some e, st1) →
        evalMechanism c recurse (.exst q ds) st domain = some (.Permerror, some e, st1))
  ∧ (∀ t st1, expandDomainSpecFn c ds st domain false = some (t, none, st1) →
        validDomainName t = false →
        evalMechanism c recurse (.incl q ds) st domain
          = some (.None, some ((("invalid hostname").data ++ t)), st1))
  ∧ (∀ t st1,
        expandDomainSpecFn c ds { st with DNSQueries := st.DNSQueries + 1 } domain false
          = some (t, none, st1) →
        validDomainName t = false →
        evalMechanism c recurse (.a q ds m4 m6) st domain
          = some (.None, some ((("invalid hostname").data ++ t)), st1))
  ∧ (∀ t st1,
        expandDomainSpecFn c ds { st with DNSQueries := st.DNSQueries + 1 } domain false
          = some (t, none, st1) →
        validDomainName t = false →
        evalMechanism c recurse (.mx q ds m4 m6) st domain
          = some (.None, some ((("invalid hostname").data ++ t)), st1))
  ∧ (∀ t st1,
        expandDomainSpecFn c ds { st with DNSQueries := st.DNSQueries + 1 } domain false
          = some (t, none, st1) →
        validDomainName t = false →
        evalMechanism c recurse (.exst q ds) st domain
          = some (.None, some ((("invalid hostname").data ++ t)), st1))
  ∧ (∀ t st1, expandDomainSpecFn c ds st domain false = some (t, none, st1) →
        validDomainName (dnsFqdn t) = false →
        evalMechanism c recurse (.ptr q ds) st domain
          = some (.Fail, some ((("invalid hostname").data ++ dnsFqdn t)), st1)) := by
  refine ⟨?_, ?_, ?_, ?_, ?_, ?_, ?_, ?_, ?_, ?_⟩
  · intro t e st1 h; simp [evalMechanism, h]
  · intro t e st1 h; simp [evalMechanism, h]
  · intro t e st1 h; simp [evalMechanism, h]
  · intro t e st1 h; simp [evalMechanism, h]
  · intro t e st1 h; simp [evalMechanism, h]
  · intro t st1 h hv; simp [evalMechanism, h, hv]
  · intro t st1 h hv; simp [evalMechanism, h, hv]
  · intro t st1 h hv; simp [evalMechanism, h, hv]
  · intro t st1 h hv; simp [evalMechanism, h, hv]
  · intro t st1 h hv; simp [evalMechanism, h, hv]

theorem c6_witness :
    evalMechanism simpleChecker constRecurse (.ptr .Pass (("%{h}").data)) v4State
      (("example.com.").data)
      = some (.Fail, some ((("invalid hostname").data ++ ['.'])), v4State) :=
  (c6_domain_spec_error_classes simpleChecker constRecurse .Pass (("%{h}").data)
    (("example.com.").data) v4State 32 128).2.2.2.2.2.2.2.2.2 [] v4State (by decide) (by decide)

/-! ### Support lemmas for C10: the evaluator never panics -/

theorem dropWhileLenLe (p : Char → Bool) : ∀ l : GoStr, (List.dropWhile p l).length ≤ l.length
  | [] => Nat.le_refl _
  | c :: rest => by
    simp only [List.dropWhile]
    split
    · exact Nat.le_succ_of_le (dropWhileLenLe p rest)
    · exact Nat.le_refl _

theorem takeWhileLenLe (p : Char → Bool) : ∀ l : GoStr, (List.takeWhile p l).length ≤ l.length
  | [] => Nat.le_refl _
  | c :: rest => by
    simp only [List.takeWhile]
    split
    · exact Nat.succ_le_succ (takeWhileLenLe p rest)
    · exact Nat.zero_le _

theorem lastIndexOfAtIsSome : ∀ s : GoStr, s.contains '@' = true → (lastIndexOf '@' s).isSome
  | [], h => by simp at h
  | c :: rest, h => by
    simp only [lastIndexOf]
    cases hrec : lastIndexOf '@' rest with
    | some i => simp
    | none =>
      by_cases hc : c = '@'
      · simp [hc]
      · exfalso
        have h2 : ('@' == c) = true ∨ rest.contains '@' = true := by
          simpa only [List.contains_cons, Bool.or_eq_true] using h
        rcases h2 with h3 | h3
        · have h5 : '@' = c := by simpa [beq_iff_eq] using h3
          exact hc h5.symm
        · have h4 := lastIndexOfAtIsSome rest h3
          rw [hrec] at h4
          simp at h4

theorem lastIndexOfAtNone (s : GoStr) (h : s.contains '@' = false) : lastIndexOf '@' s = none := by
  induction s with
  | nil => rfl
  | cons c rest ih =>
    have hcc : ('@' == c || rest.contains '@') = false := by
      simpa only [List.contains_cons] using h
    have h1 : ('@' == c) = false := by
      cases hx : ('@' == c)
      · rfl
      · rw [hx] at hcc
        simp at hcc
    have h2 : rest.contains '@' = false := by
      cases hx : rest.contains '@'
      · rfl
      · rw [hx] at hcc
        simp at hcc
    have h3 : ¬ c = '@' := by
      intro hc
      subst hc
      simp at h1
    simp only [lastIndexOf, ih h2]
    simp [h3]

theorem lookupDNS_sender (c : Checker) (h : GoStr) (q : Nat) (st : Result) :
    (lookupDNS c h q st).st.sender = st.sender := by
  unfold lookupDNS
  cases hres : c.resolver (dnsFqdn h) q with
  | error e => rfl
  | ok m =>
    dsimp only
    repeat' split
    all_goals rfl

theorem lookupAddresses_sender (c : Checker) (t : GoStr) (q : Nat) (st : Result) :
    (lookupAddresses c t q st).st.sender = st.sender := by
  unfold lookupAddresses
  dsimp only
  split
  · exact lookupDNS_sender c t q st
  · exact lookupDNS_sender c t q st

theorem ptrMacroLoop_sender (c : Checker) (q : Nat) (t : GoStr) (rrs : List RR) :
    ∀ (possibles : List GoStr) (st : Result),
      (ptrMacroLoop c q t rrs possibles st).2.2.sender = st.sender := by
  induction rrs with
  | nil => intro possibles st; rfl
  | cons rr rest ih =>
    intro possibles st
    cases rr <;> simp only [ptrMacroLoop]
    case ptr hostname =>
      have hla := lookupAddresses_sender c hostname q st
      repeat' split
      all_goals simp [ih, hla]
    all_goals exact ih possibles st

theorem expandPtrM_sender (c : Checker) (st : Result) (t : GoStr) :
    (expandPtrM c st t).2.sender = st.sender := by
  unfold expandPtrM
  dsimp only
  repeat' split
  · exact lookupDNS_sender c (dnsReverseAddr st.ip) typePTR st
  all_goals
    rename_i heq
    have h2 := congrArg (fun x => x.2.2.sender) heq
    simp only [ptrMacroLoop_sender, lookupDNS_sender] at h2
    exact h2.symm

theorem macroLetterValue_ok (c : Checker) (st : Result) (dom : GoStr) (exp : Bool) (letter : Char)
    (h : st.sender.contains '@' = true) :
    ∃ out, macroLetterValue c st dom exp letter = some out ∧ out.2.2.sender = st.sender := by
  unfold macroLetterValue
  repeat' split
  all_goals first
    | exact ⟨_, rfl, rfl⟩
    | exact ⟨_, rfl, expandPtrM_sender c st dom⟩
    | (exfalso
       rename_i hnone
       have h4 := lastIndexOfAtIsSome _ h
       rw [hnone] at h4
       simp at h4)

theorem macroTokenMatch_shrinks (s : GoStr) (l : Char) (d : GoStr) (r : Bool) (dl rest : GoStr)
    (h : macroTokenMatch s = some (l, d, r, dl, rest)) : rest.length < s.length := by
  unfold macroTokenMatch at h
  repeat' split at h
  all_goals simp_all
  next s0 r0 letter rest1 hlet =>
    have hp : ∀ x : GoStr, ((match x with
        | 'r' :: t => (true, t)
        | t => (false, t) : Bool × GoStr)).2.length ≤ x.length := by
      intro x
      split
      · simp
      · exact Nat.le_refl _
    generalize hq : (match List.drop (3 ⊓ (List.takeWhile isAsciiDigit rest1).length) rest1 with
        | 'r' :: t => (true, t)
        | t => (false, t) : Bool × GoStr) = pq at h
    have hq2 : pq.2.length ≤ rest1.length := by
      rw [← hq]
      refine Nat.le_trans (hp _) ?_
      rw [List.length_drop]
      omega
    have hdwl := dropWhileLenLe isMacroDelim pq.2
    rcases hdw : List.dropWhile isMacroDelim pq.2 with _ | ⟨c1, rest4⟩ <;> rw [hdw] at h <;>
      rw [hdw] at hdwl
    · simp at h
    · split at h
      · rename_i rest4x heqm
        simp only [Option.some.injEq, Prod.mk.injEq] at h
        have hr := h.2.2.2.2
        have hlen := congrArg List.length heqm
        simp only [List.length_cons] at hlen hdwl
        subst hr
        omega
      · simp at h

theorem expandGo_ok (c : Checker) (dom : GoStr) (exp : Bool) :
    ∀ (fuel : Nat) (cs acc : GoStr) (st : Result), st.sender.contains '@' = true →
      cs.length < fuel →
      ∃ out, expandGo c dom exp fuel cs acc st = some out ∧ out.2.2.sender = st.sender := by
  intro fuel
  induction fuel with
  | zero => intro cs acc st h hlen; omega
  | succ fuel ih =>
    intro cs acc st h hlen
    have hdl := dropWhileLenLe (fun c => c ≠ '%') cs
    unfold expandGo
    dsimp only
    rcases hdw : cs.dropWhile (fun c => c ≠ '%') with _ | ⟨p0, rest⟩
    · exact ⟨_, rfl, rfl⟩
    · rw [hdw] at hdl
      simp only [List.length_cons] at hdl
      rcases rest with _ | ⟨c1, t⟩
      · exact ⟨_, rfl, rfl⟩
      · simp only [List.length_cons] at hdl
        split
        next heqx => exact absurd heqx (by simp)
        next r0 l0 r1 heq0 =>
          injection heq0 with hc0 ht0
          subst hc0
          subst ht0
          split
          next heqz => exact absurd heqz (by simp)
          next rX t2 heq =>
            have hteq : t.length = t2.length := by
              injection heq with h1 h2
              rw [h2]
            exact ih t2 _ st h (by omega)
          next rX t2 heq =>
            have hteq : t.length = t2.length := by
              injection heq with h1 h2
              rw [h2]
            exact ih t2 _ st h (by omega)
          next rX t2 heq =>
            have hteq : t.length = t2.length := by
              injection heq with h1 h2
              rw [h2]
            exact ih t2 _ st h (by omega)
          next rX c0 t0 hn1 hn2 hn3 heq =>
            have hteq : t.length = t0.length := by
              injection heq with h1 h2
              rw [h2]
            by_cases hc0 : c0 = '{'
            · rw [if_pos hc0]
              rcases hmt : macroTokenMatch (c0 :: t0) with _ | ⟨l, d, r2, dl, rest4⟩
              · exact ⟨_, rfl, rfl⟩
              · obtain ⟨⟨repl, errv, st1⟩, hml, hsend⟩ := macroLetterValue_ok c st dom exp l h
                dsimp only
                rw [hml]
                rcases errv with _ | e
                · have hshr := macroTokenMatch_shrinks _ _ _ _ _ _ hmt
                  simp only [List.length_cons] at hshr
                  have hst1 : st1.sender.contains '@' = true := by rw [hsend]; exact h
                  obtain ⟨out, hrec, hsend2⟩ := ih rest4 _ st1 hst1 (by omega)
                  exact ⟨out, hrec, by rw [hsend2, hsend]⟩
                · exact ⟨_, rfl, hsend⟩
            · rw [if_neg hc0]
              exact ⟨_, rfl, rfl⟩

theorem containsAppendRight (l1 l2 : GoStr) (c : Char) (h : l2.contains c = true) :
    (l1 ++ l2).contains c = true := by
  have h2 : c ∈ l2 := by simpa using h
  simpa using List.mem_append_right l1 h2

theorem containsAppendLeft (l1 l2 : GoStr) (c : Char) (h : l1.contains c = true) :
    (l1 ++ l2).contains c = true := by
  have h2 : c ∈ l1 := by simpa using h
  simpa using List.mem_append_left l2 h2

theorem normalizeSender_contains (s : GoStr) : (normalizeSender s).contains '@' = true := by
  unfold normalizeSender
  by_cases h : '@' ∈ s
  · have hc : s.contains '@' = true := by simpa using h
    split
    next hcond =>
      exfalso
      rw [hc] at hcond
      simp at hcond
    next hcond =>
      dsimp only
      split
      · exact containsAppendRight (("postmaster").data) s '@' hc
      · exact hc
  · split
    next hcond =>
      dsimp only
      split
      · exact containsAppendRight (("postmaster").data) _ '@'
          (containsAppendLeft (("postmaster@").data) s '@' (by decide))
      · exact containsAppendLeft (("postmaster@").data) s '@' (by decide)
    next hcond =>
      exfalso
      have hc : s.contains '@' = false := by
        cases hx : s.contains '@'
        · rfl
        · exact absurd (by simpa using hx) h
      rw [hc] at hcond
      simp at hcond

theorem expandMacroFn_ok (c : Checker) (ds : GoStr) (st : Result) (dom : GoStr) (exp : Bool)
    (h : st.sender.contains '@' = true) :
    ∃ out, expandMacroFn c ds st dom exp = some out ∧ out.2.2.sender = st.sender :=
  expandGo_ok c dom exp (ds.length + 1) ds [] st h (Nat.lt_succ_self _)

theorem expandDomainSpecFn_ok (c : Checker) (ds : GoStr) (st : Result) (dom : GoStr) (exp : Bool)
    (h : st.sender.contains '@' = true) :
    ∃ out, expandDomainSpecFn c ds st dom exp = some out ∧ out.2.2.sender = st.sender := by
  unfold expandDomainSpecFn
  by_cases hds : ds.isEmpty = true
  · rw [if_pos hds]
    exact ⟨_, rfl, rfl⟩
  · rw [if_neg hds]
    obtain ⟨⟨tgt, errv, st1⟩, hexp, hsend⟩ := expandMacroFn_ok c ds st dom exp h
    rw [hexp]
    rcases errv with _ | e
    · dsimp only
      split
      · exact ⟨_, rfl, hsend⟩
      · exact ⟨_, rfl, hsend⟩
    · exact ⟨_, rfl, hsend⟩

theorem mxLoop_sender (c : Checker) (q : ResultType) (qtype mask : Nat) (rrs : List RR) :
    ∀ (n : Nat) (st : Result), (mxLoop c q qtype mask rrs n st).2.2.sender = st.sender := by
  induction rrs with
  | nil => intro n st; rfl
  | cons rr rest ih =>
    intro n st
    cases rr <;> simp only [mxLoop]
    case mx pref host =>
      have hla := lookupAddresses_sender c host qtype st
      repeat' split
      all_goals simp [ih, hla]
    all_goals exact ih n st

theorem ptrMechLoop_sender (c : Checker) (q : ResultType) (qtype : Nat) (target : GoStr)
    (rrs : List RR) :
    ∀ st : Result, (ptrMechLoop c q qtype target rrs st).2.2.sender = st.sender := by
  induction rrs with
  | nil => intro st; rfl
  | cons rr rest ih =>
    intro st
    cases rr <;> simp only [ptrMechLoop]
    case ptr hostname =>
      have hla := lookupAddresses_sender c hostname qtype st
      repeat' split
      all_goals simp [ih, hla]
    all_goals exact ih st

theorem explanationStep_ok (c : Checker) (expSpec dom : GoStr) (st : Result)
    (h : st.sender.contains '@' = true) :
    ∃ out, explanationStep c expSpec dom st = some out ∧ out.2.sender.contains '@' = true := by
  unfold explanationStep
  obtain ⟨⟨tgt, errv, st1⟩, hexp, hsend⟩ := expandDomainSpecFn_ok c expSpec st dom false h
  rw [hexp]
  have h1 : st1.sender.contains '@' = true := by rw [hsend]; exact h
  rcases errv with _ | e
  · dsimp only
    split
    · exact ⟨_, rfl, h1⟩
    · split
      · exact ⟨_, rfl, h1⟩
      · split
        · split
          next ts tl heqa =>
            obtain ⟨⟨expn, errw, st2⟩, hmac, hsend2⟩ :=
              expandMacroFn_ok c (joinAll ts) st1 dom true h1
            rw [hmac]
            refine ⟨_, rfl, ?_⟩
            show st2.sender.contains '@' = true
            rw [hsend2]
            exact h1
          next => exact ⟨_, rfl, h1⟩
        · exact ⟨_, rfl, h1⟩
  · exact ⟨_, rfl, by simpa using h1⟩

theorem evalMechanism_ok (c : Checker) (recurse : RecurseFn)
    (hrec : ∀ (st1 : Result) (d : GoStr) (i r : Bool), st1.sender.contains '@' = true →
        ∃ p, recurse st1 d i r = some p ∧ p.2.sender.contains '@' = true)
    (m : Mechanism) (st : Result) (dom : GoStr)
    (h : st.sender.contains '@' = true) :
    ∃ out, evalMechanism c recurse m st dom = some out ∧ out.2.2.sender.contains '@' = true := by
  cases m with
  | all q => exact ⟨_, rfl, h⟩
  | ip4 q n => exact ⟨_, rfl, h⟩
  | ip6 q n => exact ⟨_, rfl, h⟩
  | incl q ds =>
    unfold evalMechanism
    dsimp only
    obtain ⟨⟨tgt, errv, st1⟩, hexp, hsend⟩ := expandDomainSpecFn_ok c ds st dom false h
    rw [hexp]
    have hs2 : st1.sender = st.sender := hsend
    have h1 : st1.sender.contains '@' = true := by rw [hs2]; exact h
    rcases errv with _ | e
    · dsimp only
      split
      · exact ⟨_, rfl, h1⟩
      · obtain ⟨⟨rrt, st2⟩, hr, h2⟩ := hrec st1 (dnsFqdn tgt) true false h1
        rw [hr]
        cases rrt <;> exact ⟨_, rfl, h2⟩
    · exact ⟨_, rfl, h1⟩
  | a q ds m4 m6 =>
    unfold evalMechanism
    dsimp only
    obtain ⟨⟨tgt, errv, st1⟩, hexp, hsend⟩ :=
      expandDomainSpecFn_ok c ds { st with DNSQueries := st.DNSQueries + 1 } dom false h
    rw [hexp]
    have hs2 : st1.sender = st.sender := hsend
    have h1 : st1.sender.contains '@' = true := by rw [hs2]; exact h
    rcases errv with _ | e
    · dsimp only
      repeat' split
      all_goals first
        | exact ⟨_, rfl, h1⟩
        | (refine ⟨_, rfl, ?_⟩
           simp only [lookupDNS_sender, lookupAddresses_sender, mxLoop_sender, ptrMechLoop_sender]
           exact h1)
    · exact ⟨_, rfl, h1⟩
  | mx q ds m4 m6 =>
    unfold evalMechanism
    dsimp only
    obtain ⟨⟨tgt, errv, st1⟩, hexp, hsend⟩ :=
      expandDomainSpecFn_ok c ds { st with DNSQueries := st.DNSQueries + 1 } dom false h
    rw [hexp]
    have hs2 : st1.sender = st.sender := hsend
    have h1 : st1.sender.contains '@' = true := by rw [hs2]; exact h
    rcases errv with _ | e
    · dsimp only
      repeat' split
      all_goals first
        | exact ⟨_, rfl, h1⟩
        | (refine ⟨_, rfl, ?_⟩
           simp only [lookupDNS_sender, lookupAddresses_sender, mxLoop_sender, ptrMechLoop_sender]
           exact h1)
    · exact ⟨_, rfl, h1⟩
  | ptr q ds =>
    unfold evalMechanism
    dsimp only
    obtain ⟨⟨tgt, errv, st1⟩, hexp, hsend⟩ := expandDomainSpecFn_ok c ds st dom false h
    rw [hexp]
    have hs2 : st1.sender = st.sender := hsend
    have h1 : st1.sender.contains '@' = true := by rw [hs2]; exact h
    rcases errv with _ | e
    · dsimp only
      repeat' split
      all_goals first
        | exact ⟨_, rfl, h1⟩
        | (refine ⟨_, rfl, ?_⟩
           simp only [lookupDNS_sender, lookupAddresses_sender, mxLoop_sender, ptrMechLoop_sender]
           exact h1)
    · exact ⟨_, rfl, h1⟩
  | exst q ds =>
    unfold evalMechanism
    dsimp only
    obtain ⟨⟨tgt, errv, st1⟩, hexp, hsend⟩ :=
      expandDomainSpecFn_ok c ds { st with DNSQueries := st.DNSQueries + 1 } dom false h
    rw [hexp]
    have hs2 : st1.sender = st.sender := hsend
    have h1 : st1.sender.contains '@' = true := by rw [hs2]; exact h
    rcases errv with _ | e
    · dsimp only
      repeat' split
      all_goals first
        | exact ⟨_, rfl, h1⟩
        | (refine ⟨_, rfl, ?_⟩
           simp only [lookupDNS_sender, lookupAddresses_sender, mxLoop_sender, ptrMechLoop_sender]
           exact h1)
    · exact ⟨_, rfl, h1⟩

theorem walkTerms_ok (c : Checker) (recurse : RecurseFn) (expSpec : GoStr) (inc : Bool)
    (dom : GoStr)
    (hrec : ∀ (st1 : Result) (d : GoStr) (i r : Bool), st1.sender.contains '@' = true →
        ∃ p, recurse st1 d i r = some p ∧ p.2.sender.contains '@' = true) :
    ∀ (ms : List Mechanism) (st : Result), st.sender.contains '@' = true →
      ∃ w, walkTerms c recurse expSpec inc dom ms st = some w ∧
        (∀ rt st1, w = .halt rt st1 → st1.sender.contains '@' = true) ∧
        (∀ st1, w = .through st1 → st1.sender.contains '@' = true) := by
  intro ms
  induction ms with
  | nil =>
    intro st h
    refine ⟨.through st, rfl, ?_, ?_⟩
    · intro rt st1 hw
      cases hw
    · intro st1 hw
      cases hw
      exact h
  | cons m rest ih =>
    intro st h
    unfold walkTerms
    obtain ⟨⟨rt, errv, st1⟩, heval, h1⟩ := evalMechanism_ok c recurse hrec m st dom h
    rw [heval]
    dsimp only
    split
    · refine ⟨_, rfl, ?_, ?_⟩
      · intro rt2 st2 hw
        cases hw
        exact h1
      · intro st2 hw
        cases hw
    · split
      · split
        · obtain ⟨⟨rt3, st3⟩, hstep, h3⟩ := explanationStep_ok c expSpec dom
            { st1 with rtype := rt, error := errv } h1
          rw [hstep]
          refine ⟨_, rfl, ?_, ?_⟩
          · intro rt2 st2 hw
            cases hw
            exact h3
          · intro st2 hw
            cases hw
        · refine ⟨_, rfl, ?_, ?_⟩
          · intro rt2 st2 hw
            cases hw
            exact h1
          · intro st2 hw
            cases hw
      · exact ih { st1 with rtype := rt } h1

theorem checkHostCore_ok (c : Checker) :
    ∀ (fuel : Nat) (st : Result) (dom : GoStr) (inc red : Bool),
      ∃ p, checkHostCore c fuel st dom inc red = some p ∧
        (st.sender.contains '@' = true → p.2.sender.contains '@' = true) := by
  intro fuel
  induction fuel with
  | zero => intro st dom inc red; exact ⟨_, rfl, fun hs => hs⟩
  | succ fuel ih =>
    intro st dom inc red
    have hrec : ∀ (st1 : Result) (d : GoStr) (i r : Bool), st1.sender.contains '@' = true →
        ∃ p, checkHostCore c fuel st1 d i r = some p ∧ p.2.sender.contains '@' = true := by
      intro st1 d i r hs
      obtain ⟨p, hp, himp⟩ := ih st1 d i r
      exact ⟨p, hp, himp hs⟩
    unfold checkHostCore
    split
    · exact ⟨_, rfl, fun hs => hs⟩
    · split
      · exact ⟨_, rfl, fun hs => hs⟩
      · dsimp only
        have hnorm : ∀ st2 : Result, st2.sender = normalizeSender st.sender →
            st2.sender.contains '@' = true := by
          intro st2 h2
          rw [h2]
          exact normalizeSender_contains st.sender
        split
        · exact ⟨_, rfl, fun _ => by exact hnorm _ rfl⟩
        · split
          · exact ⟨_, rfl, fun _ => by exact hnorm _ rfl⟩
          · split
            · split
              · exact ⟨_, rfl, fun _ => by exact hnorm _ rfl⟩
              · exact ⟨_, rfl, fun _ => by exact hnorm _ rfl⟩
            · split
              · exact ⟨_, rfl, fun _ => by exact hnorm _ rfl⟩
              · split
                · exact ⟨_, rfl, fun _ => by exact hnorm _ rfl⟩
                · rename_i rec heqp
                  obtain ⟨w, hw, hwh, hwt⟩ := walkTerms_ok c
                      (fun s d i r => checkHostCore c fuel s d i r) rec.exp inc dom hrec
                      rec.mechanisms
                      { st with sender := normalizeSender st.sender,
                                DNSQueries := st.DNSQueries + 1 }
                      (by exact hnorm _ rfl)
                  rw [hw]
                  cases w with
                  | halt rt st1 => exact ⟨_, rfl, fun _ => hwh rt st1 rfl⟩
                  | through st1 =>
                    dsimp only
                    have h1 := hwt st1 rfl
                    split
                    · obtain ⟨⟨tgt, errv, st2⟩, hexp, hsend⟩ :=
                        expandDomainSpecFn_ok c _ st1 dom false h1
                      rw [hexp]
                      have hs2 : st2.sender = st1.sender := hsend
                      have h2 : st2.sender.contains '@' = true := by rw [hs2]; exact h1
                      rcases errv with _ | e
                      · dsimp only
                        split
                        · exact ⟨_, rfl, fun _ => h2⟩
                        · obtain ⟨p, hp, h3⟩ := hrec st2 (dnsFqdn tgt) false true h2
                          exact ⟨p, hp, fun _ => h3⟩
                      · exact ⟨_, rfl, fun _ => h2⟩
                    · exact ⟨_, rfl, fun _ => h1⟩

/-- Claim C10.  Macro expansion of the letter `l` slices the sender
around the last `@` and panics (modelled as `none`) when the sender has
no `@`; with an `@` present the whole macro expansion is total; the
evaluator's sender normalisation always produces a sender containing
`@` (prepending `postmaster@` or appending `@` + domain as needed)
before any mechanism or macro runs; and consequently the check-host
evaluator never panics: it returns `some` result for every input. -/
theorem c10_sender_localpart_safety :
    (∀ (c : Checker) (st : Result) (dom : GoStr) (exp : Bool),
        st.sender.contains '@' = false → macroLetterValue c st dom exp 'l' = none)
  ∧ (∀ (c : Checker) (ds : GoStr) (st : Result) (dom : GoStr) (exp : Bool),
        st.sender.contains '@' = true → (expandMacroFn c ds st dom exp).isSome = true)
  ∧ (∀ s : GoStr, (normalizeSender s).contains '@' = true)
  ∧ (∀ (c : Checker) (fuel : Nat) (st : Result) (dom : GoStr) (inc red : Bool),
        (checkHostCore c fuel st dom inc red).isSome = true) := by
  refine ⟨?_, ?_, ?_, ?_⟩
  · intro c st dom exp h
    unfold macroLetterValue
    rw [lastIndexOfAtNone _ h]
    rfl
  · intro c ds st dom exp h
    obtain ⟨out, hout, _⟩ := expandMacroFn_ok c ds st dom exp h
    rw [hout]
    rfl
  · exact normalizeSender_contains
  · intro c fuel st dom inc red
    obtain ⟨p, hp, _⟩ := checkHostCore_ok c fuel st dom inc red
    rw [hp]
    rfl

theorem c10_witness :
    (expandMacroFn simpleChecker (("%{l}").data) v4State (("example.com.").data) false).isSome
      = true :=
  c10_sender_localpart_safety.2.1 simpleChecker (("%{l}").data) v4State
    (("example.com.").data) false (by decide)

theorem takeWhileAppendSat (p : Char → Bool) : ∀ l1 l2 : GoStr, (∀ c ∈ l1, p c = true) →
    (l1 ++ l2).takeWhile p = l1 ++ l2.takeWhile p
  | [], l2, _ => by simp
  | c :: t, l2, h => by
    have hc : p c = true := h c (by simp)
    simp only [List.cons_append, List.takeWhile_cons, hc, if_true]
    rw [takeWhileAppendSat p t l2 (fun x hx => h x (by simp [hx]))]

theorem dropWhileAppendSat (p : Char → Bool) : ∀ l1 l2 : GoStr, (∀ c ∈ l1, p c = true) →
    (l1 ++ l2).dropWhile p = l2.dropWhile p
  | [], l2, _ => by simp
  | c :: t, l2, h => by
    have hc : p c = true := h c (by simp)
    simp only [List.cons_append, List.dropWhile_cons, hc, if_true]
    exact dropWhileAppendSat p t l2 (fun x hx => h x (by simp [hx]))

theorem dropTakeWhileMem (q : Char → Bool) : ∀ (l : GoStr) (t : Nat),
    t < (l.takeWhile q).length → ∃ c rest, l.drop t = c :: rest ∧ q c = true
  | [], t, h => by simp at h
  | c :: tl, t, h => by
    by_cases hc : q c = true
    · cases t with
      | zero => exact ⟨c, tl, rfl, hc⟩
      | succ t =>
        simp only [List.takeWhile_cons, hc, if_true, List.length_cons,
          Nat.succ_lt_succ_iff] at h
        exact dropTakeWhileMem q tl t h
    · simp [List.takeWhile_cons, Bool.eq_false_iff.mpr hc] at h

theorem takeWhileMono (p q : Char → Bool) (hpq : ∀ c, p c = true → q c = true) :
    ∀ l : GoStr, l.takeWhile p = (l.takeWhile q).takeWhile p
  | [] => by simp
  | c :: t => by
    by_cases hp : p c = true
    · have hq := hpq c hp
      simp only [List.takeWhile_cons, hp, hq, if_true]
      rw [takeWhileMono p q hpq t]
    · by_cases hq : q c = true <;>
        simp [List.takeWhile_cons, hq, Bool.eq_false_iff.mpr hp]

theorem takeWhileFull (p : Char → Bool) : ∀ l : GoStr,
    (l.takeWhile p).length = l.length → l.all p = true
  | [], _ => rfl
  | c :: t, h => by
    by_cases hp : p c = true
    · simp only [List.takeWhile_cons, hp, if_true, List.length_cons, Nat.succ.injEq] at h
      simp [hp, takeWhileFull p t h, List.all_cons]
    · simp [List.takeWhile_cons, hp] at h

theorem appendConsNotEmpty (l1 l2 : GoStr) (c : Char) : (l1 ++ c :: l2).isEmpty = false := by
  cases l1 <;> rfl

theorem splitCharNoSep (sep : Char) : ∀ l : GoStr, sep ∉ l → splitChar sep l = [l]
  | [], _ => rfl
  | c :: t, h => by
    have hc : ¬ c = sep := fun hcs => h (by simp [hcs])
    have ht := splitCharNoSep sep t (fun hm => h (by simp [hm]))
    simp only [splitChar, if_neg hc, ht]

theorem splitCharAppendSep (sep : Char) : ∀ (a rest : GoStr), sep ∉ a →
    splitChar sep (a ++ sep :: rest) = a :: splitChar sep rest
  | [], rest, _ => by simp [splitChar]
  | c :: a, rest, h => by
    have hc : ¬ c = sep := fun hcs => h (by simp [hcs])
    have ht := splitCharAppendSep sep a rest (fun hm => h (by simp [hm]))
    simp only [List.cons_append, splitChar, if_neg hc, List.append_eq, ht]

theorem splitJoinSep (sep : Char) : ∀ toks : List GoStr, toks ≠ [] →
    (∀ t ∈ toks, sep ∉ t) → splitChar sep (joinSep sep toks) = toks
  | [], hne, _ => absurd rfl hne
  | [x], _, h => by
    simp only [joinSep]
    exact splitCharNoSep sep x (h x (by simp))
  | x :: y :: rest, _, h => by
    simp only [joinSep]
    rw [splitCharAppendSep sep x (joinSep sep (y :: rest)) (h x (by simp))]
    rw [splitJoinSep sep (y :: rest) (by simp) (fun t ht => h t (by simp [ht]))]

theorem joinSepMem (sep : Char) : ∀ (toks : List GoStr) (c : Char),
    c ∈ joinSep sep toks → c = sep ∨ ∃ t ∈ toks, c ∈ t
  | [], c, h => by simp [joinSep] at h
  | [x], c, h => by
    right; exact ⟨x, by simp, by simpa [joinSep] using h⟩
  | x :: y :: rest, c, h => by
    simp only [joinSep, List.mem_append, List.mem_cons] at h
    rcases h with hx | hc | hrest
    · right; exact ⟨x, by simp, hx⟩
    · left; exact hc
    · rcases joinSepMem sep (y :: rest) c hrest with hs | ⟨t, ht, hct⟩
      · left; exact hs
      · right; exact ⟨t, by simp [List.mem_cons] at ht ⊢; tauto, hct⟩

theorem joinSepConsShape (sep : Char) (y : GoStr) (rest : List GoStr) :
    joinSep sep (y :: rest) = y ++ (if rest.isEmpty then [] else sep :: joinSep sep rest) := by
  cases rest <;> simp [joinSep]

set_option maxRecDepth 10000 in
theorem printNatFacts : ∀ n : Nat, n < 256 →
    allDigits (printNat n) = true ∧ 1 ≤ (printNat n).length ∧ (printNat n).length ≤ 3 ∧
    decVal (printNat n) = n ∧ parseOctet (printNat n) = some n := by
  decide

set_option maxRecDepth 10000 in
theorem printNatShort : ∀ n : Nat, n < 33 → (printNat n).length ≤ 2 := by
  decide

theorem digitNotSpecial (c : Char) (h : isAsciiDigit c = true) :
    c ≠ '/' ∧ c ≠ ':' ∧ c ≠ '.' := by
  refine ⟨?_, ?_, ?_⟩ <;> rintro rfl <;> simp [isAsciiDigit] at h

theorem digitIsTld (c : Char) (h : isAsciiDigit c = true) : isTldChar c = true := by
  simp [isTldChar, isAlnum, h]

theorem tldNotSlash (c : Char) (h : isTldChar c = true) : c ≠ '/' := by
  rintro rfl
  simp [isTldChar, isAlnum, isAsciiAlpha, isAsciiDigit] at h

theorem v4SplitNoneOfDrop (s : GoStr) (c : Char) (rest : GoStr) (hc : c ≠ '/')
    (hdrop : s.reverse.drop (s.reverse.takeWhile isAsciiDigit).length = c :: rest) :
    v4Split s = none := by
  unfold v4Split
  dsimp only
  split
  · rw [hdrop]
    split
    · rename_i r heq
      injection heq with h1 h2
      exact absurd h1 hc
    · rfl
  · rfl

theorem v6SplitNoneOfDrop (s : GoStr) (c : Char) (rest : GoStr) (hc : c ≠ '/')
    (hdrop : s.reverse.drop (s.reverse.takeWhile isAsciiDigit).length = c :: rest) :
    v6Split s = none := by
  unfold v6Split
  dsimp only
  split
  · rw [hdrop]
    split
    · rename_i r heq
      injection heq with h1 h2
      exact absurd h1 hc
    · rfl
  · rfl

theorem v4SplitNoneOfNoDigits (s : GoStr) (ht : (s.reverse.takeWhile isAsciiDigit).length = 0) :
    v4Split s = none := by
  unfold v4Split
  dsimp only
  rw [if_neg]
  simp [ht]

theorem v6SplitNoneOfNoDigits (s : GoStr) (ht : (s.reverse.takeWhile isAsciiDigit).length = 0) :
    v6Split s = none := by
  unfold v6Split
  dsimp only
  rw [if_neg]
  simp [ht]

theorem dotStrip (c0 : Char) (rtl : GoStr) (hdot : c0 ≠ '.') :
    (match c0 :: rtl with | '.' :: t => t | t => t) = c0 :: rtl := by
  split
  · rename_i heq
    injection heq with h1 h2
    exact absurd h1 hdot
  · rfl

theorem suffixNoCidr (ds lab : GoStr) (hcap : suffixCapture ds = some lab)
    (hnum : allNumeric lab = false) :
    v4Split ds = none ∧ v6Split ds = none ∧ ∀ c, ds.reverse.head? = some c → c ≠ '/' := by
  rcases hrev : ds.reverse with _ | ⟨c0, rtl⟩
  · exfalso
    unfold suffixCapture at hcap
    rw [hrev] at hcap
    simp at hcap
  · by_cases hdot : c0 = '.'
    · subst hdot
      have ht : (ds.reverse.takeWhile isAsciiDigit).length = 0 := by
        rw [hrev]; rfl
      refine ⟨v4SplitNoneOfNoDigits ds ht, v6SplitNoneOfNoDigits ds ht, ?_⟩
      intro c hc
      simp only [List.head?_cons] at hc
      injection hc with hc
      subst hc
      decide
    · unfold suffixCapture at hcap
      rw [hrev] at hcap
      dsimp only at hcap
      rw [dotStrip c0 rtl hdot] at hcap
      split at hcap
      · split at hcap
        · exact absurd hcap (by simp)
        · exact absurd hcap (by simp)
        · rename_i hdw a rest hlab
          split at hcap
          · rename_i hcond
            injection hcap with hcap
            have hnum0 : (List.takeWhile isTldChar (c0 :: rtl)).all isAsciiDigit = false := by
              have := hnum
              rw [← hcap] at this
              simpa [allNumeric, List.all_reverse] using this
            have hmono := takeWhileMono isAsciiDigit isTldChar digitIsTld (c0 :: rtl)
            have hlen : (List.takeWhile isAsciiDigit (c0 :: rtl)).length ≤
                (List.takeWhile isTldChar (c0 :: rtl)).length := by
              rw [hmono]
              exact takeWhileLenLe isAsciiDigit _
            rcases Nat.lt_or_ge (List.takeWhile isAsciiDigit (c0 :: rtl)).length
                (List.takeWhile isTldChar (c0 :: rtl)).length with hlt | hge
            · obtain ⟨c, rest2, hdrop, hctld⟩ :=
                dropTakeWhileMem isTldChar (c0 :: rtl) _ hlt
              have hdrop' : ds.reverse.drop (ds.reverse.takeWhile isAsciiDigit).length
                  = c :: rest2 := by rw [hrev]; exact hdrop
              refine ⟨v4SplitNoneOfDrop ds c rest2 (tldNotSlash c hctld) hdrop',
                v6SplitNoneOfDrop ds c rest2 (tldNotSlash c hctld) hdrop', ?_⟩
              intro ch hch
              simp only [List.head?_cons] at hch
              injection hch with hch
              subst hch
              have hpos : 0 < (List.takeWhile isTldChar (c0 :: rtl)).length := by
                rw [hlab]; simp
              obtain ⟨cx, restx, hdx, hcx⟩ := dropTakeWhileMem isTldChar (c0 :: rtl) 0 hpos
              rw [List.drop_zero] at hdx
              injection hdx with h1 h2
              subst h1
              exact tldNotSlash _ hcx
            · exfalso
              have heq : (List.takeWhile isAsciiDigit (c0 :: rtl)).length =
                  (List.takeWhile isTldChar (c0 :: rtl)).length := Nat.le_antisymm hlen hge
              rw [hmono] at heq
              exact absurd (takeWhileFull isAsciiDigit _ heq) (by simp [hnum0])
          · exact absurd hcap (by simp)
      · exact absurd hcap (by simp)

theorem validDomainSpecElim (ds : GoStr) (h : validDomainSpec ds = true) :
    ds.getLast? = some '}' ∨ ∃ lab, suffixCapture ds = some lab ∧ allNumeric lab = false := by
  unfold validDomainSpec at h
  split at h
  · rename_i hv
    unfold validDomainName at hv
    dsimp only at hv
    split at hv
    · exact absurd hv (by simp)
    · split at hv
      · exact absurd hv (by simp)
      · rename_i lab hcap
        right
        exact ⟨lab, hcap, by simpa using hv⟩
  · split at h
    · exact absurd h (by simp)
    · split at h
      · left; assumption
      · split at h
        · exact absurd h (by simp)
        · rename_i lab hcap
          right
          exact ⟨lab, hcap, by simpa using h⟩

theorem voDSNoCidr (ds : GoStr) (h : validOptionalDomainSpec ds = true) :
    v4Split ds = none ∧ v6Split ds = none ∧ ∀ c, ds.reverse.head? = some c → c ≠ '/' := by
  rcases (by simpa [validOptionalDomainSpec] using h :
      ds = [] ∨ validDomainSpec ds = true) with rfl | hv
  · exact ⟨rfl, rfl, by intro c hc; simp at hc⟩
  · rcases validDomainSpecElim ds hv with hlast | ⟨lab, hcap, hnum⟩
    · have hrevh : ds.reverse.head? = some '}' := by
        rw [List.head?_reverse]
        exact hlast
      rcases hrev : ds.reverse with _ | ⟨c0, rtl⟩
      · rw [hrev] at hrevh; simp at hrevh
      · rw [hrev] at hrevh
        simp only [List.head?_cons] at hrevh
        injection hrevh with hrevh
        subst hrevh
        have ht : (ds.reverse.takeWhile isAsciiDigit).length = 0 := by
          rw [hrev]; rfl
        refine ⟨v4SplitNoneOfNoDigits ds ht, v6SplitNoneOfNoDigits ds ht, ?_⟩
        intro c hc
        simp only [List.head?_cons] at hc
        injection hc with hc
        subst hc
        decide
    · exact suffixNoCidr ds lab hcap hnum

theorem printNatRevDigits (m : Nat) (hm : m < 256) :
    ∀ c ∈ (printNat m).reverse, isAsciiDigit c = true := by
  intro c hc
  rw [List.mem_reverse] at hc
  have hall := (printNatFacts m hm).1
  rw [allDigits, List.all_eq_true] at hall
  exact hall c hc

theorem v4SplitAppend (x : GoStr) (m : Nat) (hm : m < 33) :
    v4Split (x ++ '/' :: printNat m) = some (x, printNat m) := by
  have hr : (x ++ '/' :: printNat m).reverse = (printNat m).reverse ++ '/' :: x.reverse := by
    simp
  have htw : ((printNat m).reverse ++ '/' :: x.reverse).takeWhile isAsciiDigit
      = (printNat m).reverse := by
    rw [takeWhileAppendSat isAsciiDigit _ _ (printNatRevDigits m (by omega))]
    simp [List.takeWhile_cons, show isAsciiDigit '/' = false from rfl]
  have hlen1 : 1 ≤ (printNat m).length := (printNatFacts m (by omega)).2.1
  have hlen2 : (printNat m).length ≤ 2 := printNatShort m hm
  unfold v4Split
  dsimp only
  rw [hr, htw]
  rw [if_pos (by simp [List.length_reverse]; omega)]
  rw [List.drop_left]
  simp

theorem v6SplitAppend (x : GoStr) (m : Nat) (hm : m < 129) :
    v6Split (x ++ '/' :: '/' :: printNat m) = some (x, printNat m) := by
  have hr : (x ++ '/' :: '/' :: printNat m).reverse
      = (printNat m).reverse ++ '/' :: '/' :: x.reverse := by
    simp
  have htw : ((printNat m).reverse ++ '/' :: '/' :: x.reverse).takeWhile isAsciiDigit
      = (printNat m).reverse := by
    rw [takeWhileAppendSat isAsciiDigit _ _ (printNatRevDigits m (by omega))]
    simp [List.takeWhile_cons, show isAsciiDigit '/' = false from rfl]
  have hlen1 : 1 ≤ (printNat m).length := (printNatFacts m (by omega)).2.1
  have hlen3 : (printNat m).length ≤ 3 := (printNatFacts m (by omega)).2.2.1
  unfold v6Split
  dsimp only
  rw [hr, htw]
  rw [if_pos (by simp [List.length_reverse]; omega)]
  rw [List.drop_left]
  simp

theorem v6SplitSingleSlashNone (x : GoStr) (m : Nat) (hm : m < 256)
    (hx : ∀ c, x.reverse.head? = some c → c ≠ '/') :
    v6Split (x ++ '/' :: printNat m) = none := by
  have hr : (x ++ '/' :: printNat m).reverse = (printNat m).reverse ++ '/' :: x.reverse := by
    simp
  have htw : ((printNat m).reverse ++ '/' :: x.reverse).takeWhile isAsciiDigit
      = (printNat m).reverse := by
    rw [takeWhileAppendSat isAsciiDigit _ _ (printNatRevDigits m hm)]
    simp [List.takeWhile_cons, show isAsciiDigit '/' = false from rfl]
  unfold v6Split
  dsimp only
  rw [hr, htw]
  split
  · rw [List.drop_left]
    rcases hxr : x.reverse with _ | ⟨c, t⟩
    · rfl
    · have hc : c ≠ '/' := hx c (by rw [hxr]; rfl)
      split
      · rename_i r heq
        injection heq with h1 h2
        injection h2 with h2a h2b
        exact absurd h2a hc
      · rfl
  · rfl

theorem dualCIDRrt11 (ds : GoStr) (h : validOptionalDomainSpec ds = true) :
    dualCIDR ds = .ok (ds, 32, 128) := by
  obtain ⟨h4, h6, -⟩ := voDSNoCidr ds h
  simp [dualCIDR, h4, h6]

theorem dualCIDRrt1n (ds : GoStr) (m6 : Nat) (h : validOptionalDomainSpec ds = true)
    (hm6 : m6 < 129) :
    dualCIDR (ds ++ '/' :: '/' :: printNat m6) = .ok (ds, 32, m6) := by
  obtain ⟨h4, -, -⟩ := voDSNoCidr ds h
  have h6 := v6SplitAppend ds m6 hm6
  have hval : decVal (printNat m6) = m6 := (printNatFacts m6 (by omega)).2.2.2.1
  simp [dualCIDR, h6, h4, hval, show ¬ (m6 > 128) from by omega]

theorem dualCIDRrtn1 (ds : GoStr) (m4 : Nat) (h : validOptionalDomainSpec ds = true)
    (hm4 : m4 < 33) :
    dualCIDR (ds ++ '/' :: printNat m4) = .ok (ds, m4, 128) := by
  obtain ⟨-, -, hhead⟩ := voDSNoCidr ds h
  have h6 := v6SplitSingleSlashNone ds m4 (by omega) hhead
  have h4 := v4SplitAppend ds m4 hm4
  have hval : decVal (printNat m4) = m4 := (printNatFacts m4 (by omega)).2.2.2.1
  simp [dualCIDR, h6, h4, hval, show ¬ (m4 > 32) from by omega]

theorem dualCIDRrtnn (ds : GoStr) (m4 m6 : Nat)
    (hm4 : m4 < 33) (hm6 : m6 < 129) :
    dualCIDR (ds ++ '/' :: (printNat m4 ++ '/' :: '/' :: printNat m6)) = .ok (ds, m4, m6) := by
  have h6 := v6SplitAppend (ds ++ '/' :: printNat m4) m6 hm6
  have h4 := v4SplitAppend ds m4 hm4
  simp only [List.append_assoc, List.cons_append] at h6
  have hval4 : decVal (printNat m4) = m4 := (printNatFacts m4 (by omega)).2.2.2.1
  have hval6 : decVal (printNat m6) = m6 := (printNatFacts m6 (by omega)).2.2.2.1
  simp [dualCIDR, h6, h4, hval4, hval6, show ¬ (m4 > 32) from by omega,
    show ¬ (m6 > 128) from by omega]

theorem validQualifierElim (q : ResultType) (h : validQualifier q = true) :
    q = .Pass ∨ q = .Fail ∨ q = .Softfail ∨ q = .Neutral := by
  cases q <;> simp [validQualifier] at h ⊢

theorem byteAtMod (a i : Nat) : byteAt a i = a / 2 ^ (8 * i) % 256 := by
  rw [byteAt, Nat.shiftRight_eq_div_pow]
  rw [show (255 : Nat) = 2 ^ 8 - 1 from rfl, Nat.and_pow_two_sub_one_eq_mod]

theorem byteAtLt (a i : Nat) : byteAt a i < 256 := by
  rw [byteAtMod]
  exact Nat.mod_lt _ (by norm_num)

theorem byteRecombine (a : Nat) (ha : a < 2 ^ 32) :
    ((byteAt a 3 * 256 + byteAt a 2) * 256 + byteAt a 1) * 256 + byteAt a 0 = a := by
  simp only [byteAtMod]
  norm_num
  omega

theorem noDotPrintNat (b : Nat) (hb : b < 256) : '.' ∉ printNat b := by
  intro hm
  have hall := (printNatFacts b hb).1
  rw [allDigits, List.all_eq_true] at hall
  exact (digitNotSpecial '.' (hall '.' hm)).2.2 rfl

theorem splitDotted (a : Nat) : splitChar '.' (ipv4Dotted a)
    = [printNat (byteAt a 3), printNat (byteAt a 2), printNat (byteAt a 1),
       printNat (byteAt a 0)] := by
  unfold ipv4Dotted
  simp only [List.append_assoc, List.cons_append]
  rw [splitCharAppendSep '.' _ _ (noDotPrintNat _ (byteAtLt a 3))]
  rw [splitCharAppendSep '.' _ _ (noDotPrintNat _ (byteAtLt a 2))]
  rw [splitCharAppendSep '.' _ _ (noDotPrintNat _ (byteAtLt a 1))]
  rw [splitCharNoSep '.' _ (noDotPrintNat _ (byteAtLt a 0))]

theorem parseDotted (a : Nat) (ha : a < 2 ^ 32) : parseIPv4Str (ipv4Dotted a) = some a := by
  have h3 := (printNatFacts _ (byteAtLt a 3)).2.2.2.2
  have h2 := (printNatFacts _ (byteAtLt a 2)).2.2.2.2
  have h1 := (printNatFacts _ (byteAtLt a 1)).2.2.2.2
  have h0 := (printNatFacts _ (byteAtLt a 0)).2.2.2.2
  simp [parseIPv4Str, splitDotted, h3, h2, h1, h0, byteRecombine a ha]

theorem dottedMem (a : Nat) (c : Char) (hc : c ∈ ipv4Dotted a) :
    isAsciiDigit c = true ∨ c = '.' := by
  have hin : ∀ b, b < 256 → c ∈ printNat b → isAsciiDigit c = true := by
    intro b hb hm
    have hall := (printNatFacts b hb).1
    rw [allDigits, List.all_eq_true] at hall
    exact hall c hm
  unfold ipv4Dotted at hc
  simp only [List.append_assoc, List.cons_append] at hc
  simp only [List.mem_append, List.mem_cons] at hc
  rcases hc with h | h | h | h | h | h | h
  · exact Or.inl (hin _ (byteAtLt a 3) h)
  · exact Or.inr h
  · exact Or.inl (hin _ (byteAtLt a 2) h)
  · exact Or.inr h
  · exact Or.inl (hin _ (byteAtLt a 1) h)
  · exact Or.inr h
  · exact Or.inl (hin _ (byteAtLt a 0) h)

theorem firstSlashSplitAppend (x : GoStr) (rest : GoStr)
    (hx : ∀ c ∈ x, c ≠ '/') :
    firstSlashSplit (x ++ '/' :: rest) = some (x, rest) := by
  have hsat : ∀ c ∈ x, (decide ¬(c = '/')) = true := by
    intro c hc
    simp [hx c hc]
  unfold firstSlashSplit
  rw [if_pos (containsAppendRight x _ '/' (by simp))]
  rw [takeWhileAppendSat _ x _ hsat, dropWhileAppendSat _ x _ hsat]
  simp

theorem parseCIDRStrictV4 (a ones : Nat) (ha : a < 2 ^ 32) (ho : ones ≤ 32)
    (hm : a &&& maskBits ones 32 = a) :
    parseCIDRStrict (ipv4Dotted a ++ '/' :: printNat ones)
      = some ⟨true, ⟨true, a, ones⟩⟩ := by
  have hsplit := firstSlashSplitAppend (ipv4Dotted a) (printNat ones)
    (fun c hc => by
      rcases dottedMem a c hc with hd | hd
      · exact (digitNotSpecial c hd).1
      · rw [hd]; decide)
  have hmne : (printNat ones).isEmpty = false := by
    have := (printNatFacts ones (by omega)).2.1
    cases hpn : printNat ones
    · rw [hpn] at this; simp at this
    · rfl
  have hmdig : allDigits (printNat ones) = true := (printNatFacts ones (by omega)).1
  have hval : decVal (printNat ones) = ones := (printNatFacts ones (by omega)).2.2.2.1
  have hgo : goParseCIDR (ipv4Dotted a ++ '/' :: printNat ones)
      = some ⟨true, ⟨true, a, ones⟩⟩ := by
    unfold goParseCIDR
    rw [hsplit]
    simp only [hmne, hmdig, Bool.not_true, Bool.or_self, Bool.false_eq_true, if_false]
    rw [parseDotted a ha]
    simp [hval, ho, hm]
  unfold parseCIDRStrict
  rw [hgo, hsplit]
  simp

theorem hexDigitAuxShift (n : Nat) : ∀ (fuel : Nat) (acc : GoStr), n < fuel →
    hexDigitAux fuel n acc = hexDigitAux (n + 1) n [] ++ acc := by
  induction n using Nat.strong_induction_on with
  | _ n ih =>
    intro fuel acc hf
    match fuel, hf with
    | f + 1, hf =>
      by_cases h16 : n < 16
      · show (if n < 16 then _ else _) = hexDigitAux (n + 1) n [] ++ acc
        rw [if_pos h16]
        show _ = (if n < 16 then _ else _) ++ acc
        rw [if_pos h16]
        rfl
      · have hdiv : n / 16 < n := Nat.div_lt_self (by omega) (by omega)
        show (if n < 16 then _ else _) = hexDigitAux (n + 1) n [] ++ acc
        rw [if_neg h16]
        conv_rhs => rw [show hexDigitAux (n + 1) n []
          = if n < 16 then [hexDigitChar (n % 16)]
            else hexDigitAux n (n / 16) [hexDigitChar (n % 16)] from rfl]
        rw [if_neg h16]
        rw [ih (n / 16) hdiv f (hexDigitChar (n % 16) :: acc) (by omega)]
        rw [ih (n / 16) hdiv n [hexDigitChar (n % 16)] (by omega)]
        simp

theorem printHexRec (n : Nat) (h : 16 ≤ n) :
    printHex n = printHex (n / 16) ++ [hexDigitChar (n % 16)] := by
  unfold printHex
  conv_lhs => rw [show hexDigitAux (n + 1) n []
    = if n < 16 then [hexDigitChar (n % 16)]
      else hexDigitAux n (n / 16) [hexDigitChar (n % 16)] from rfl]
  rw [if_neg (by omega)]
  exact hexDigitAuxShift (n / 16) n [hexDigitChar (n % 16)]
    (Nat.lt_of_lt_of_le (Nat.div_lt_self (by omega) (by omega)) (by omega))

theorem printHexSmall (n : Nat) (h : n < 16) : printHex n = [hexDigitChar n] := by
  unfold printHex
  conv_lhs => rw [show hexDigitAux (n + 1) n []
    = if n < 16 then [hexDigitChar (n % 16)]
      else hexDigitAux n (n / 16) [hexDigitChar (n % 16)] from rfl]
  rw [if_pos h, Nat.mod_eq_of_lt h]

theorem hexCharValDigit (k : Nat) (h : k < 16) : hexCharVal (hexDigitChar k) = k := by
  interval_cases k <;> decide

theorem hexDigitCharHex (k : Nat) (h : k < 16) : isHexChar (hexDigitChar k) = true := by
  interval_cases k <;> decide

theorem hexValAuxAppend (xs ys : GoStr) : ∀ a : Nat,
    hexValAux a (xs ++ ys) = hexValAux (hexValAux a xs) ys := by
  induction xs with
  | nil => intro a; rfl
  | cons c t ih => intro a; simp only [List.cons_append, hexValAux]; exact ih _

theorem hexValPrintHex (n : Nat) : hexVal (printHex n) = n := by
  induction n using Nat.strong_induction_on with
  | _ n ih =>
    by_cases h16 : n < 16
    · rw [printHexSmall n h16]
      show hexValAux (0 * 16 + hexCharVal (hexDigitChar n)) [] = n
      simp [hexValAux, hexCharValDigit n h16]
    · rw [printHexRec n (by omega), hexVal, hexValAuxAppend]
      have := ih (n / 16) (Nat.div_lt_self (by omega) (by omega))
      rw [hexVal] at this
      rw [this]
      show hexValAux (n / 16 * 16 + hexCharVal (hexDigitChar (n % 16))) [] = n
      rw [hexCharValDigit (n % 16) (Nat.mod_lt _ (by omega))]
      show n / 16 * 16 + n % 16 = n
      omega

theorem printHexAllHex (n : Nat) : ∀ c ∈ printHex n, isHexChar c = true := by
  induction n using Nat.strong_induction_on with
  | _ n ih =>
    by_cases h16 : n < 16
    · rw [printHexSmall n h16]
      intro c hc
      simp only [List.mem_singleton] at hc
      rw [hc]
      exact hexDigitCharHex n h16
    · rw [printHexRec n (by omega)]
      intro c hc
      rw [List.mem_append, List.mem_singleton] at hc
      rcases hc with hc | hc
      · exact ih (n / 16) (Nat.div_lt_self (by omega) (by omega)) c hc
      · rw [hc]
        exact hexDigitCharHex (n % 16) (Nat.mod_lt _ (by omega))

theorem printHexNotNil (n : Nat) : printHex n ≠ [] := by
  by_cases h16 : n < 16
  · rw [printHexSmall n h16]; simp
  · rw [printHexRec n (by omega)]; simp

theorem hexCharNotSpecial (c : Char) (h : isHexChar c = true) :
    c ≠ ':' ∧ c ≠ '.' ∧ c ≠ '/' := by
  refine ⟨?_, ?_, ?_⟩ <;> rintro rfl <;> simp [isHexChar, isAsciiDigit] at h

theorem parseHexGroupPrint (g : Nat) (hg : g < 65536) :
    parseHexGroup (printHex g) = some g := by
  unfold parseHexGroup
  rw [if_pos]
  · rw [hexValPrintHex]
  · have h1 : (printHex g).isEmpty = false := by
      cases hpn : printHex g
      · exact absurd hpn (printHexNotNil g)
      · rfl
    have h2 : (printHex g).all isHexChar = true := by
      rw [List.all_eq_true]
      exact printHexAllHex g
    rw [h1, h2, hexValPrintHex]
    simp
    omega

theorem groupsOfAuxLen (k : Nat) : ∀ n : Nat, (groupsOfAux k n).length = k := by
  induction k with
  | zero => intro n; rfl
  | succ k ih => intro n; simp [groupsOfAux, ih]

theorem groupsOfAuxLt (k : Nat) : ∀ n : Nat, ∀ g ∈ groupsOfAux k n, g < 65536 := by
  induction k with
  | zero => intro n g hg; simp [groupsOfAux] at hg
  | succ k ih =>
    intro n g hg
    simp only [groupsOfAux, List.mem_append, List.mem_singleton] at hg
    rcases hg with hg | hg
    · exact ih _ g hg
    · rw [hg]; exact Nat.mod_lt _ (by omega)

theorem combineAppendOne (xs : List Nat) (y : Nat) :
    combineGroups (xs ++ [y]) = combineGroups xs * 65536 + y := by
  unfold combineGroups
  rw [List.foldl_append]
  rfl

theorem combineGroupsOfAux (k : Nat) : ∀ n : Nat,
    combineGroups (groupsOfAux k n) = n % 65536 ^ k := by
  induction k with
  | zero => intro n; simp [groupsOfAux, combineGroups, Nat.mod_one]
  | succ k ih =>
    intro n
    rw [groupsOfAux, combineAppendOne, ih]
    rw [← Nat.mod_mul_right_div_self]
    have hdvd : (65536 : Nat) ∣ 65536 * 65536 ^ k := Dvd.intro _ rfl
    rw [← Nat.mod_mod_of_dvd n hdvd]
    have hcomm : (65536 : Nat) * 65536 ^ k = 65536 ^ (k + 1) := by ring
    rw [hcomm]
    omega

theorem combineGroupsOf (n : Nat) (h : n < 2 ^ 128) : combineGroups (groupsOf n) = n := by
  rw [groupsOf, combineGroupsOfAux]
  exact Nat.mod_eq_of_lt (by norm_num at h ⊢; omega)

theorem fdcNoColon : ∀ l : GoStr, ':' ∉ l → findDoubleColon l = none
  | [], _ => rfl
  | c :: rest, h => by
    have hc : c ≠ ':' := fun hceq => h (by simp [hceq])
    have ht := fdcNoColon rest (fun hm => h (by simp [hm]))
    rw [findDoubleColon.eq_def]
    split
    · rename_i rest2 heq
      injection heq with h1 h2
      exact absurd h1 hc
    · rename_i c2 rest2 hno hne
      injection hne with h1 h2
      subst h2
      rw [ht]
    · rename_i hno hne
      simp at hne

theorem fdcAppendNoColon : ∀ (x l : GoStr), ':' ∉ x →
    findDoubleColon (x ++ l) = (findDoubleColon l).map (fun p => (x ++ p.1, p.2))
  | [], l, _ => by
    simp only [List.nil_append]
    rcases hl : findDoubleColon l with _ | ⟨a, b⟩ <;> simp
  | c :: x, l, h => by
    have hc : c ≠ ':' := fun hceq => h (by simp [hceq])
    have ih := fdcAppendNoColon x l (fun hm => h (by simp [hm]))
    rw [List.cons_append, findDoubleColon.eq_def]
    split
    · rename_i rest2 heq
      injection heq with h1 h2
      exact absurd h1 hc
    · rename_i c2 rest2 hno hne
      injection hne with h1 h2
      subst h1
      rw [← h2, ih]
      rcases hl : findDoubleColon l with _ | ⟨a, b⟩ <;> simp
    · rename_i hno hne
      simp at hne

theorem joinHeadNotColon (y : GoStr) (rest : List GoStr) (hy : y ≠ []) (hyc : ':' ∉ y) :
    ∃ c0 t0, joinSep ':' (y :: rest) = c0 :: t0 ∧ c0 ≠ ':' := by
  rcases y with _ | ⟨c0, y2⟩
  · exact absurd rfl hy
  · refine ⟨c0, y2 ++ (if rest.isEmpty then [] else ':' :: joinSep ':' rest), ?_, ?_⟩
    · rw [joinSepConsShape]
      rfl
    · exact fun hceq => hyc (by simp [hceq])

theorem fdcJoinNone : ∀ toks : List GoStr, (∀ t ∈ toks, t ≠ [] ∧ ':' ∉ t) →
    findDoubleColon (joinSep ':' toks) = none
  | [], _ => rfl
  | [x], h => fdcNoColon x (h x (by simp)).2
  | x :: y :: rest, h => by
    have hx := h x (by simp)
    have hy := h y (by simp)
    obtain ⟨c0, t0, hj, hc0⟩ := joinHeadNotColon y rest hy.1 hy.2
    have ih := fdcJoinNone (y :: rest) (fun t ht => h t (by simp [List.mem_cons] at ht ⊢; tauto))
    show findDoubleColon (x ++ ':' :: joinSep ':' (y :: rest)) = none
    rw [fdcAppendNoColon x _ hx.2]
    rw [show findDoubleColon (':' :: joinSep ':' (y :: rest)) = none from ?_]
    · rfl
    · rw [findDoubleColon.eq_def]
      split
      · rename_i rest2 heq
        injection heq with h1 h2
        rw [hj] at h2
        injection h2 with h2a h2b
        exact absurd h2a hc0
      · rename_i c2 rest2 hno hne
        injection hne with h1 h2
        rw [← h2, ih]
      · rename_i hno hne
        simp at hne

theorem fdcJoinFound : ∀ (toks : List GoStr) (R : GoStr), (∀ t ∈ toks, t ≠ [] ∧ ':' ∉ t) →
    findDoubleColon (joinSep ':' toks ++ ':' :: ':' :: R) = some (joinSep ':' toks, R)
  | [], R, _ => rfl
  | [x], R, h => by
    have hx := h x (by simp)
    show findDoubleColon (x ++ ':' :: ':' :: R) = some (x, R)
    rw [fdcAppendNoColon x _ hx.2]
    simp [show findDoubleColon (':' :: ':' :: R) = some ([], R) from rfl]
  | x :: y :: rest, R, h => by
    have hx := h x (by simp)
    have hy := h y (by simp)
    obtain ⟨c0, t0, hj, hc0⟩ := joinHeadNotColon y rest hy.1 hy.2
    have ih := fdcJoinFound (y :: rest) R
      (fun t ht => h t (by simp [List.mem_cons] at ht ⊢; tauto))
    show findDoubleColon (x ++ ':' :: joinSep ':' (y :: rest) ++ ':' :: ':' :: R)
      = some (x ++ ':' :: joinSep ':' (y :: rest), R)
    rw [List.append_assoc, List.cons_append]
    rw [fdcAppendNoColon x _ hx.2]
    rw [show findDoubleColon (':' :: (joinSep ':' (y :: rest) ++ ':' :: ':' :: R))
      = some (':' :: joinSep ':' (y :: rest), R) from ?_]
    · rfl
    · rw [findDoubleColon.eq_def]
      split
      · rename_i rest2 heq
        injection heq with h1 h2
        rw [hj] at h2
        rw [List.cons_append] at h2
        injection h2 with h2a h2b
        exact absurd h2a hc0
      · rename_i c2 rest2 hno hne
        injection hne with h1 h2
        subst h1
        rw [← h2, ih]
      · rename_i hno hne
        simp at hne

theorem noDotHex (g : Nat) : (printHex g).contains '.' = false := by
  have hnm : '.' ∉ printHex g :=
    fun hm => (hexCharNotSpecial _ (printHexAllHex g _ hm)).2.1 rfl
  simpa using hnm

theorem noColonHexMem (g : Nat) : ':' ∉ printHex g :=
  fun hm => (hexCharNotSpecial _ (printHexAllHex g _ hm)).1 rfl

theorem parseHexGroupsPrint : ∀ gs : List Nat, (∀ g ∈ gs, g < 65536) →
    parseHexGroups (gs.map printHex) = some gs
  | [], _ => rfl
  | g :: t, h => by
    have hg := parseHexGroupPrint g (h g (by simp))
    have ih := parseHexGroupsPrint t (fun x hx => h x (by simp [hx]))
    simp only [List.map_cons, parseHexGroups, hg, ih]

theorem parseTailGroupsPrint : ∀ gs : List Nat, (∀ g ∈ gs, g < 65536) →
    parseTailGroups (gs.map printHex) = some gs
  | [], _ => rfl
  | [g], h => by
    have hg := parseHexGroupPrint g (h g (by simp))
    simp only [List.map_cons, List.map_nil, parseTailGroups, noDotHex g, hg]
    rfl
  | g :: g2 :: t, h => by
    have hg := parseHexGroupPrint g (h g (by simp))
    have ih := parseTailGroupsPrint (g2 :: t) (fun x hx => h x (by simp [List.mem_cons] at hx ⊢; tauto))
    simp only [List.map_cons] at ih ⊢
    rw [parseTailGroups.eq_def]
    split
    · rename_i heq
      simp at heq
    · rename_i t2 heq
      simp at heq
    · rename_i t2 rest2 heq
      injection heq with h1 h2
      subst h1
      rw [← h2, hg, ih]

theorem zeroRunsAuxCongr : ∀ (gs1 gs2 : List Nat) (i : Nat) (cur : Option (Nat × Nat)),
    gs1.map (fun g => decide (g = 0)) = gs2.map (fun g => decide (g = 0)) →
    zeroRunsAux gs1 i cur = zeroRunsAux gs2 i cur
  | [], [], _, _, _ => rfl
  | [], g2 :: t2, _, _, h => by simp at h
  | g :: t, [], _, _, h => by simp at h
  | g :: t, g2 :: t2, i, cur, h => by
    simp only [List.map_cons, List.cons.injEq] at h
    obtain ⟨hhead, htail⟩ := h
    have ih := fun i cur => zeroRunsAuxCongr t t2 i cur htail
    by_cases hg : g = 0
    · have hg2 : g2 = 0 := by
        rw [hg] at hhead
        simpa using hhead.symm
      rw [zeroRunsAux.eq_def, zeroRunsAux.eq_def]
      dsimp only
      rw [if_pos hg, if_pos hg2]
      cases cur with
      | none => exact ih _ _
      | some r => exact ih _ _
    · have hg2 : ¬ g2 = 0 := by
        intro hg2e
        rw [hg2e] at hhead
        simp at hhead
        exact hg hhead
      rw [zeroRunsAux.eq_def, zeroRunsAux.eq_def]
      dsimp only
      rw [if_neg hg, if_neg hg2]
      cases cur with
      | none => exact ih _ _
      | some r => rw [ih _ _]

theorem bestZeroRunCongr (gs1 gs2 : List Nat)
    (h : gs1.map (fun g => decide (g = 0)) = gs2.map (fun g => decide (g = 0))) :
    bestZeroRun gs1 = bestZeroRun gs2 := by
  unfold bestZeroRun zeroRuns
  rw [zeroRunsAuxCongr gs1 gs2 0 none h]

theorem maskMapEq : ∀ gs : List Nat,
    (gs.map (fun g => if g = 0 then (0 : Nat) else 1)).map (fun g => decide (g = 0))
      = gs.map (fun g => decide (g = 0))
  | [] => rfl
  | g :: t => by
    by_cases hg : g = 0 <;> simp [hg, maskMapEq t]

set_option maxRecDepth 10000 in
theorem bzrMask8 : ∀ b0 b1 b2 b3 b4 b5 b6 b7 : Bool,
    (match bestZeroRun ([b0, b1, b2, b3, b4, b5, b6, b7].map
        (fun b => if b = true then (0 : Nat) else 1)) with
     | none => true
     | some (s, l) => decide (2 ≤ l) && decide (s + l ≤ 8) &&
        (List.range l).all (fun j =>
          ([b0, b1, b2, b3, b4, b5, b6, b7].map
            (fun b => if b = true then (0 : Nat) else 1)).get? (s + j) == some 0)) = true := by
  decide

theorem bestZeroRunSpec (gs : List Nat) (hlen : gs.length = 8) (s l : Nat)
    (hb : bestZeroRun gs = some (s, l)) :
    2 ≤ l ∧ s + l ≤ 8 ∧ ∀ j, j < l → gs.get? (s + j) = some 0 := by
  rcases gs with _ | ⟨g0, gs⟩; · simp at hlen
  rcases gs with _ | ⟨g1, gs⟩; · simp at hlen
  rcases gs with _ | ⟨g2, gs⟩; · simp at hlen
  rcases gs with _ | ⟨g3, gs⟩; · simp at hlen
  rcases gs with _ | ⟨g4, gs⟩; · simp at hlen
  rcases gs with _ | ⟨g5, gs⟩; · simp at hlen
  rcases gs with _ | ⟨g6, gs⟩; · simp at hlen
  rcases gs with _ | ⟨g7, gs⟩; · simp at hlen
  rcases gs with _ | ⟨g8, gs⟩
  swap; · simp at hlen
  have hcongr := bestZeroRunCongr
    ([g0, g1, g2, g3, g4, g5, g6, g7].map (fun g => if g = 0 then (0 : Nat) else 1))
    [g0, g1, g2, g3, g4, g5, g6, g7]
    (maskMapEq [g0, g1, g2, g3, g4, g5, g6, g7])
  have hmask := bzrMask8 (decide (g0 = 0)) (decide (g1 = 0)) (decide (g2 = 0))
    (decide (g3 = 0)) (decide (g4 = 0)) (decide (g5 = 0)) (decide (g6 = 0)) (decide (g7 = 0))
  have hshape : ([decide (g0 = 0), decide (g1 = 0), decide (g2 = 0), decide (g3 = 0),
      decide (g4 = 0), decide (g5 = 0), decide (g6 = 0), decide (g7 = 0)].map
        (fun b => if b = true then (0 : Nat) else 1))
      = [g0, g1, g2, g3, g4, g5, g6, g7].map (fun g => if g = 0 then (0 : Nat) else 1) := by
    simp only [List.map_cons, List.map_nil, decide_eq_true_eq]
  rw [hshape, hcongr, hb] at hmask
  simp only [Bool.and_eq_true, decide_eq_true_eq, List.all_eq_true, List.mem_range,
    beq_iff_eq] at hmask
  obtain ⟨⟨hl2, hsl⟩, hzero⟩ := hmask
  refine ⟨hl2, hsl, ?_⟩
  intro j hj
  have hz := hzero j hj
  rw [List.get?_eq_getElem?] at hz ⊢
  rw [List.getElem?_map] at hz
  rcases hget : ([g0, g1, g2, g3, g4, g5, g6, g7] : List Nat)[s + j]? with _ | g
  · rw [hget] at hz; exact absurd hz (by simp)
  · rw [hget] at hz
    simp only [Option.map] at hz
    injection hz with hz
    by_cases hgz : g = 0
    · rw [hgz]
    · rw [if_neg hgz] at hz
      omega

theorem takePrefixReplicate : ∀ (l : Nat) (xs : List Nat), l ≤ xs.length →
    (∀ j, j < l → xs.get? j = some 0) → xs.take l = List.replicate l 0
  | 0, xs, _, _ => by simp
  | l + 1, [], hlen, _ => by simp at hlen
  | l + 1, x :: t, hlen, hz => by
    have hx : x = 0 := by
      have := hz 0 (by omega)
      simp [List.get?] at this
      exact this
    have ih := takePrefixReplicate l t (by simp at hlen; omega)
      (fun j hj => by simpa [List.get?] using hz (j + 1) (by omega))
    rw [List.take_succ_cons, ih, hx]
    rfl

theorem reconstructRun (gs : List Nat) (s l : Nat) (hsl : s + l ≤ gs.length)
    (hz : ∀ j, j < l → gs.get? (s + j) = some 0) :
    gs.take s ++ (List.replicate l 0 ++ gs.drop (s + l)) = gs := by
  have htake : (gs.drop s).take l = List.replicate l 0 := by
    apply takePrefixReplicate
    · rw [List.length_drop]; omega
    · intro j hj
      rw [List.get?_eq_getElem?, List.getElem?_drop]
      rw [← List.get?_eq_getElem?]
      exact hz j hj
  have hdrop : gs.drop s = List.replicate l 0 ++ gs.drop (s + l) := by
    conv_lhs => rw [← List.take_append_drop l (gs.drop s)]
    rw [htake, List.drop_drop]
  conv_rhs => rw [← List.take_append_drop s gs]
  rw [hdrop]

theorem hexTokensOk (ts : List Nat) : ∀ t ∈ ts.map printHex, t ≠ [] ∧ ':' ∉ t := by
  intro t ht
  rw [List.mem_map] at ht
  obtain ⟨g, _, rfl⟩ := ht
  exact ⟨printHexNotNil g, noColonHexMem g⟩

theorem joinHexNotEmpty (t0 : Nat) (ts : List Nat) :
    (joinSep ':' ((t0 :: ts).map printHex)).isEmpty = false := by
  rw [List.map_cons, joinSepConsShape]
  rcases hph : printHex t0 with _ | ⟨c0, r0⟩
  · exact absurd hph (printHexNotNil t0)
  · rfl

theorem parseHexSide (part : List Nat) (hlt : ∀ g ∈ part, g < 65536) :
    (if (joinSep ':' (part.map printHex)).isEmpty = true then some []
     else parseHexGroups (splitChar ':' (joinSep ':' (part.map printHex)))) = some part := by
  rcases part with _ | ⟨t0, ts⟩
  · rfl
  · rw [if_neg (by rw [joinHexNotEmpty]; simp)]
    rw [splitJoinSep ':' ((t0 :: ts).map printHex) (by simp)
      (fun t ht => (hexTokensOk (t0 :: ts) t ht).2)]
    exact parseHexGroupsPrint (t0 :: ts) hlt

theorem parseTailSide (part : List Nat) (hlt : ∀ g ∈ part, g < 65536) :
    (if (joinSep ':' (part.map printHex)).isEmpty = true then some []
     else parseTailGroups (splitChar ':' (joinSep ':' (part.map printHex)))) = some part := by
  rcases part with _ | ⟨t0, ts⟩
  · rfl
  · rw [if_neg (by rw [joinHexNotEmpty]; simp)]
    rw [splitJoinSep ':' ((t0 :: ts).map printHex) (by simp)
      (fun t ht => (hexTokensOk (t0 :: ts) t ht).2)]
    exact parseTailGroupsPrint (t0 :: ts) hlt

theorem parseIPv6Grouped (a : Nat) (ha : a < 2 ^ 128) :
    parseIPv6Str (ipv6Grouped (groupsOf a)) = some a := by
  have hlen8 : (groupsOf a).length = 8 := groupsOfAuxLen 8 a
  have hltall : ∀ g ∈ groupsOf a, g < 65536 := groupsOfAuxLt 8 a
  have hcomb : combineGroups (groupsOf a) = a := combineGroupsOf a ha
  unfold ipv6Grouped
  rcases hbz : bestZeroRun (groupsOf a) with _ | ⟨s, l⟩
  · unfold parseIPv6Str
    rw [fdcJoinNone ((groupsOf a).map printHex) (hexTokensOk (groupsOf a))]
    rw [splitJoinSep ':' ((groupsOf a).map printHex)
      (by rcases hgs : groupsOf a with _ | _; · rw [hgs] at hlen8; simp at hlen8
          · simp)
      (fun t ht => (hexTokensOk (groupsOf a) t ht).2)]
    rw [parseTailGroupsPrint (groupsOf a) hltall]
    dsimp only
    rw [if_pos hlen8]
    rw [hcomb]
  · obtain ⟨hl2, hsl, hz⟩ := bestZeroRunSpec (groupsOf a) hlen8 s l hbz
    unfold parseIPv6Str
    rw [fdcJoinFound (((groupsOf a).take s).map printHex)
      (joinSep ':' (((groupsOf a).drop (s + l)).map printHex))
      (hexTokensOk ((groupsOf a).take s))]
    dsimp only
    rw [parseHexSide ((groupsOf a).take s)
      (fun g hg => hltall g (List.take_subset s (groupsOf a) hg))]
    rw [parseTailSide ((groupsOf a).drop (s + l))
      (fun g hg => hltall g (List.drop_subset (s + l) (groupsOf a) hg))]
    have hlt : ((groupsOf a).take s).length = s := by
      rw [List.length_take, hlen8]
      omega
    have hld : ((groupsOf a).drop (s + l)).length = 8 - (s + l) := by
      rw [List.length_drop, hlen8]
    dsimp only
    rw [if_pos (by rw [hlt, hld]; omega)]
    rw [hlt, hld]
    rw [show 8 - s - (8 - (s + l)) = l from by omega]
    rw [List.append_assoc]
    rw [reconstructRun (groupsOf a) s l (by omega) hz]
    rw [hcomb]

theorem groupedMemSafe (gs : List Nat) (c : Char) (hc : c ∈ ipv6Grouped gs) :
    c ≠ '/' ∧ c ≠ '.' := by
  have hhex : ∀ g : Nat, c ∈ printHex g → c ≠ '/' ∧ c ≠ '.' := by
    intro g hm
    have h := hexCharNotSpecial c (printHexAllHex g c hm)
    exact ⟨h.2.2, h.2.1⟩
  have hjoin : ∀ part : List Nat, c ∈ joinSep ':' (part.map printHex) → c ≠ '/' ∧ c ≠ '.' := by
    intro part hm
    rcases joinSepMem ':' _ c hm with rfl | ⟨t, ht, hct⟩
    · exact ⟨by decide, by decide⟩
    · rw [List.mem_map] at ht
      obtain ⟨g, _, rfl⟩ := ht
      exact hhex g hct
  unfold ipv6Grouped at hc
  split at hc
  · exact hjoin gs hc
  · rename_i s l hbz
    simp only [List.mem_append, List.mem_cons] at hc
    rcases hc with hc | hc | hc | hc
    · exact hjoin _ hc
    · rw [hc]; exact ⟨by decide, by decide⟩
    · rw [hc]; exact ⟨by decide, by decide⟩
    · exact hjoin _ hc

theorem parseIPv4Grouped (gs : List Nat) : parseIPv4Str (ipv6Grouped gs) = none := by
  have hnodot : '.' ∉ ipv6Grouped gs := fun hm => (groupedMemSafe gs '.' hm).2 rfl
  unfold parseIPv4Str
  rw [splitCharNoSep '.' _ hnodot]

theorem parseCIDRStrictV6 (a ones : Nat) (ha : a < 2 ^ 128) (ho : ones ≤ 128)
    (hm : a &&& maskBits ones 128 = a) :
    parseCIDRStrict (ipv6Grouped (groupsOf a) ++ '/' :: printNat ones)
      = some ⟨isV4Mapped a, ⟨false, a, ones⟩⟩ := by
  have hsplit := firstSlashSplitAppend (ipv6Grouped (groupsOf a)) (printNat ones)
    (fun c hc => (groupedMemSafe (groupsOf a) c hc).1)
  have hmne : (printNat ones).isEmpty = false := by
    have := (printNatFacts ones (by omega)).2.1
    cases hpn : printNat ones
    · rw [hpn] at this; simp at this
    · rfl
  have hmdig : allDigits (printNat ones) = true := (printNatFacts ones (by omega)).1
  have hval : decVal (printNat ones) = ones := (printNatFacts ones (by omega)).2.2.2.1
  have hgo : goParseCIDR (ipv6Grouped (groupsOf a) ++ '/' :: printNat ones)
      = some ⟨isV4Mapped a, ⟨false, a, ones⟩⟩ := by
    unfold goParseCIDR
    rw [hsplit]
    simp only [hmne, hmdig, Bool.not_true, Bool.or_self, Bool.false_eq_true, if_false]
    rw [parseIPv4Grouped, parseIPv6Grouped a ha]
    simp [hval, ho, hm]
  unfold parseCIDRStrict
  rw [hgo, hsplit]
  simp

theorem mechRoundTripAll (q : ResultType) (hwf : wfMechanism (.all q) = true) :
    NewMechanism ((Mechanism.all q).str) = .ok (.all q) := by
  rcases validQualifierElim q (by simpa [wfMechanism] using hwf) with rfl | rfl | rfl | rfl <;>
    decide

theorem mechRoundTripIncl (q : ResultType) (ds : GoStr) (hwf : wfMechanism (.incl q ds) = true) :
    NewMechanism ((Mechanism.incl q ds).str) = .ok (.incl q ds) := by
  simp only [wfMechanism, Bool.and_eq_true, Bool.not_eq_true', List.isEmpty_eq_false] at hwf
  obtain ⟨⟨hq, hne⟩, hvd⟩ := hwf
  have hne' : ds.isEmpty = false := by simpa using hne
  rcases validQualifierElim q hq with rfl | rfl | rfl | rfl <;>
    simp [Mechanism.str, mechanismString, resultChar, NewMechanism, lowerStr, lowerChar,
      hne', hvd]

theorem mechRoundTripExst (q : ResultType) (ds : GoStr) (hwf : wfMechanism (.exst q ds) = true) :
    NewMechanism ((Mechanism.exst q ds).str) = .ok (.exst q ds) := by
  simp only [wfMechanism, Bool.and_eq_true, Bool.not_eq_true', List.isEmpty_eq_false] at hwf
  obtain ⟨⟨hq, hne⟩, hvd⟩ := hwf
  have hne' : ds.isEmpty = false := by simpa using hne
  rcases validQualifierElim q hq with rfl | rfl | rfl | rfl <;>
    simp [Mechanism.str, mechanismString, resultChar, NewMechanism, lowerStr, lowerChar,
      hne', hvd]

theorem mechRoundTripPtr (q : ResultType) (ds : GoStr) (hwf : wfMechanism (.ptr q ds) = true) :
    NewMechanism ((Mechanism.ptr q ds).str) = .ok (.ptr q ds) := by
  simp only [wfMechanism, Bool.and_eq_true] at hwf
  obtain ⟨hq, hvd⟩ := hwf
  by_cases hds : ds = []
  · subst hds
    rcases validQualifierElim q hq with rfl | rfl | rfl | rfl <;> decide
  · have hne' : ds.isEmpty = false := by simpa using hds
    rcases validQualifierElim q hq with rfl | rfl | rfl | rfl <;>
      simp [Mechanism.str, mechanismString, resultChar, NewMechanism, lowerStr, lowerChar,
        hne', hvd]

theorem mechRoundTripA (q : ResultType) (ds : GoStr) (m4 m6 : Nat)
    (hwf : wfMechanism (.a q ds m4 m6) = true) :
    NewMechanism ((Mechanism.a q ds m4 m6).str) = .ok (.a q ds m4 m6) := by
  simp only [wfMechanism, Bool.and_eq_true, decide_eq_true_eq] at hwf
  obtain ⟨⟨⟨hq, hvd⟩, hm4⟩, hm6⟩ := hwf
  by_cases h4 : m4 = 32 <;> by_cases h6 : m6 = 128 <;> by_cases hds : ds = []
  · subst h4; subst h6; subst hds
    rcases validQualifierElim q hq with rfl | rfl | rfl | rfl <;> decide
  · subst h4; subst h6
    have hne' : ds.isEmpty = false := by simpa using hds
    rcases validQualifierElim q hq with rfl | rfl | rfl | rfl <;>
      simp [Mechanism.str, mechanismString, resultChar, NewMechanism, lowerStr, lowerChar,
        hne', hvd, dualCIDRrt11 ds hvd]
  · subst h4; subst hds
    have hd := dualCIDRrt1n [] m6 (by decide) (by omega)
    simp only [List.nil_append] at hd
    rcases validQualifierElim q hq with rfl | rfl | rfl | rfl <;>
      simp [Mechanism.str, mechanismString, resultChar, NewMechanism, lowerStr, lowerChar,
        h6, hd, validOptionalDomainSpec]
  · subst h4
    have hne' : ds.isEmpty = false := by simpa using hds
    rcases validQualifierElim q hq with rfl | rfl | rfl | rfl <;>
      simp [Mechanism.str, mechanismString, resultChar, NewMechanism, lowerStr, lowerChar,
        hne', hvd, h6, dualCIDRrt1n ds m6 hvd (by omega)]
  · subst h6; subst hds
    have hd := dualCIDRrtn1 [] m4 (by decide) (by omega)
    simp only [List.nil_append] at hd
    rcases validQualifierElim q hq with rfl | rfl | rfl | rfl <;>
      simp [Mechanism.str, mechanismString, resultChar, NewMechanism, lowerStr, lowerChar,
        h4, hd, validOptionalDomainSpec]
  · subst h6
    have hne' : ds.isEmpty = false := by simpa using hds
    rcases validQualifierElim q hq with rfl | rfl | rfl | rfl <;>
      simp [Mechanism.str, mechanismString, resultChar, NewMechanism, lowerStr, lowerChar,
        hne', hvd, h4, dualCIDRrtn1 ds m4 hvd (by omega)]
  · subst hds
    have hd := dualCIDRrtnn [] m4 m6 (by omega) (by omega)
    simp only [List.nil_append] at hd
    rcases validQualifierElim q hq with rfl | rfl | rfl | rfl <;>
      simp [Mechanism.str, mechanismString, resultChar, NewMechanism, lowerStr, lowerChar,
        h4, h6, hd, validOptionalDomainSpec]
  · have hne' : ds.isEmpty = false := by simpa using hds
    rcases validQualifierElim q hq with rfl | rfl | rfl | rfl <;>
      simp [Mechanism.str, mechanismString, resultChar, NewMechanism, lowerStr, lowerChar,
        hne', hvd, h4, h6, dualCIDRrtnn ds m4 m6 (by omega) (by omega)]

theorem mechRoundTripMx (q : ResultType) (ds : GoStr) (m4 m6 : Nat)
    (hwf : wfMechanism (.mx q ds m4 m6) = true) :
    NewMechanism ((Mechanism.mx q ds m4 m6).str) = .ok (.mx q ds m4 m6) := by
  simp only [wfMechanism, Bool.and_eq_true, decide_eq_true_eq] at hwf
  obtain ⟨⟨⟨hq, hvd⟩, hm4⟩, hm6⟩ := hwf
  by_cases h4 : m4 = 32 <;> by_cases h6 : m6 = 128 <;> by_cases hds : ds = []
  · subst h4; subst h6; subst hds
    rcases validQualifierElim q hq with rfl | rfl | rfl | rfl <;> decide
  · subst h4; subst h6
    have hne' : ds.isEmpty = false := by simpa using hds
    rcases validQualifierElim q hq with rfl | rfl | rfl | rfl <;>
      simp [Mechanism.str, mechanismString, resultChar, NewMechanism, lowerStr, lowerChar,
        hne', hvd, dualCIDRrt11 ds hvd]
  · subst h4; subst hds
    have hd := dualCIDRrt1n [] m6 (by decide) (by omega)
    simp only [List.nil_append] at hd
    rcases validQualifierElim q hq with rfl | rfl | rfl | rfl <;>
      simp [Mechanism.str, mechanismString, resultChar, NewMechanism, lowerStr, lowerChar,
        h6, hd, validOptionalDomainSpec]
  · subst h4
    have hne' : ds.isEmpty = false := by simpa using hds
    rcases validQualifierElim q hq with rfl | rfl | rfl | rfl <;>
      simp [Mechanism.str, mechanismString, resultChar, NewMechanism, lowerStr, lowerChar,
        hne', hvd, h6, dualCIDRrt1n ds m6 hvd (by omega)]
  · subst h6; subst hds
    have hd := dualCIDRrtn1 [] m4 (by decide) (by omega)
    simp only [List.nil_append] at hd
    rcases validQualifierElim q hq with rfl | rfl | rfl | rfl <;>
      simp [Mechanism.str, mechanismString, resultChar, NewMechanism, lowerStr, lowerChar,
        h4, hd, validOptionalDomainSpec]
  · subst h6
    have hne' : ds.isEmpty = false := by simpa using hds
    rcases validQualifierElim q hq with rfl | rfl | rfl | rfl <;>
      simp [Mechanism.str, mechanismString, resultChar, NewMechanism, lowerStr, lowerChar,
        hne', hvd, h4, dualCIDRrtn1 ds m4 hvd (by omega)]
  · subst hds
    have hd := dualCIDRrtnn [] m4 m6 (by omega) (by omega)
    simp only [List.nil_append] at hd
    rcases validQualifierElim q hq with rfl | rfl | rfl | rfl <;>
      simp [Mechanism.str, mechanismString, resultChar, NewMechanism, lowerStr, lowerChar,
        h4, h6, hd, validOptionalDomainSpec]
  · have hne' : ds.isEmpty = false := by simpa using hds
    rcases validQualifierElim q hq with rfl | rfl | rfl | rfl <;>
      simp [Mechanism.str, mechanismString, resultChar, NewMechanism, lowerStr, lowerChar,
        hne', hvd, h4, h6, dualCIDRrtnn ds m4 m6 (by omega) (by omega)]

theorem mechRoundTripIp4 (q : ResultType) (n : IPNetM) (hwf : wfMechanism (.ip4 q n) = true) :
    NewMechanism ((Mechanism.ip4 q n).str) = .ok (.ip4 q n) := by
  simp only [wfMechanism, Bool.and_eq_true, decide_eq_true_eq] at hwf
  obtain ⟨⟨⟨⟨hq, hv4⟩, ho⟩, ha⟩, hm⟩ := hwf
  obtain ⟨nv4, naddr, nones⟩ := n
  simp only at hv4 ho ha hm
  subst hv4
  have hps := parseCIDRStrictV4 naddr nones ha ho hm
  have hne : (ipnetString ⟨true, naddr, nones⟩).isEmpty = false := by
    unfold ipnetString ipv4Dotted
    simp only [List.append_assoc, List.cons_append]
    exact appendConsNotEmpty _ _ _
  have hcont : (ipnetString ⟨true, naddr, nones⟩).contains '/' = true := by
    unfold ipnetString
    exact containsAppendRight _ _ '/' (by simp)
  rcases validQualifierElim q hq with rfl | rfl | rfl | rfl <;>
    simp [Mechanism.str, mechanismString, resultChar, NewMechanism, lowerStr, lowerChar,
      ipnetString, hne, hcont, hps]

theorem mechRoundTripIp6 (q : ResultType) (n : IPNetM) (hwf : wfMechanism (.ip6 q n) = true) :
    NewMechanism ((Mechanism.ip6 q n).str) = .ok (.ip6 q n) := by
  simp only [wfMechanism, Bool.and_eq_true, Bool.not_eq_true', decide_eq_true_eq] at hwf
  obtain ⟨⟨⟨⟨⟨hq, hv4⟩, ho⟩, ha⟩, hm⟩, hnm⟩ := hwf
  obtain ⟨nv4, naddr, nones⟩ := n
  simp only at hv4 ho ha hm hnm
  subst hv4
  have hps := parseCIDRStrictV6 naddr nones ha ho hm
  rw [hnm] at hps
  have hstr : ipnetString ⟨false, naddr, nones⟩
      = ipv6Grouped (groupsOf naddr) ++ '/' :: printNat nones := by
    unfold ipnetString ipv6String
    simp [hnm]
  have hne : (ipnetString ⟨false, naddr, nones⟩).isEmpty = false := by
    rw [hstr]
    exact appendConsNotEmpty _ _ _
  have hcont : (ipnetString ⟨false, naddr, nones⟩).contains '/' = true := by
    rw [hstr]
    exact containsAppendRight _ _ '/' (by simp)
  rcases validQualifierElim q hq with rfl | rfl | rfl | rfl <;>
    simp [Mechanism.str, mechanismString, resultChar, NewMechanism, lowerStr, lowerChar,
      hstr, hne, hcont, hps]

/-- Claim C9, amended.  Re-parsing the canonical textual form of a mechanism
with the mechanism parser recovers the original mechanism, for every
well-formed mechanism value: one whose qualifier is one of the four RFC 7208
qualifiers (the counterexample shows the round trip fails for the other
result codes, whose qualifier character serialises as the empty string), whose
domain-specs satisfy the library's own domain-spec validator, whose prefix
lengths are in range, and whose ip4/ip6 networks carry a masked address of the
matching family (with a 4-in-6 ip6 network excluded: its text form is a dotted
quad that cannot re-parse with a 128-bit prefix length). -/
theorem c9_roundtrip_wellformed (m : Mechanism) (h : wfMechanism m = true) :
    NewMechanism (Mechanism.str m) = Except.ok m := by
  cases m with
  | all q => exact mechRoundTripAll q h
  | incl q ds => exact mechRoundTripIncl q ds h
  | a q ds m4 m6 => exact mechRoundTripA q ds m4 m6 h
  | mx q ds m4 m6 => exact mechRoundTripMx q ds m4 m6 h
  | ptr q ds => exact mechRoundTripPtr q ds h
  | ip4 q n => exact mechRoundTripIp4 q n h
  | ip6 q n => exact mechRoundTripIp6 q n h
  | exst q ds => exact mechRoundTripExst q ds h

/-- Witness for `c9_roundtrip_wellformed`: the mechanism `-a:example.com/24//64`
is well-formed and round-trips through the parser. -/
theorem c9_roundtrip_witness :
    wfMechanism (.a .Fail (("example.com").data) 24 64) = true ∧
    NewMechanism ((Mechanism.a .Fail (("example.com").data) 24 64).str)
      = .ok (.a .Fail (("example.com").data) 24 64) :=
  ⟨by decide, c9_roundtrip_wellformed (.a .Fail (("example.com").data) 24 64) (by decide)⟩
